import Mathlib

/-!
# Go playground backend (`backend/main.go`): frame codec, handshake, session loop, runs

A shallow embedding of `backend/main.go`: the hand-written WebSocket code (`wsHandshake`,
`wsReadMessage`, `wsSendMessage`), the loop of `handleWebSocket`, the two goroutines of
`runCodeAndSendOutput` and the output emitter.

Modelling conventions
* A byte is a `Nat` (a Go `byte` is a `Nat` below 256); a `[]byte` or `string` is a `List Nat`.
* Go `int` is the 64-bit two's complement integer of the platforms the server targets:
  the value of an `int` expression is an `Int`, obtained from the unsigned bit pattern with
  `int64`.
* The read side of a connection is the list of bytes the peer still sends, after which the
  stream ends (`io.EOF`).  The write side is the list of bytes handed to `Conn.Write`; writes
  are taken to succeed.
* `make([]byte, n)` is a run-time panic when `n` is negative or above the allocator limit of
  the runtime, it ends the process when the operating system does not give `n` bytes, and it
  succeeds otherwise.  The two limits are parameters, `maxAlloc` and `memory`.
* A reader or writer loop of the source is a recursion with an iteration budget (`fuel`)
  large enough for the whole input; the lemmas `handleWebSocket_ends`, `drainLoop_fuel` and
  `drain_eq` show that the budget is never the reason a loop stops.
* Functions of the Go standard library that the code calls (`io.ReadFull`, `bufio` and
  `unicode/utf8`, `strconv.Quote`, `crypto/sha1`, `encoding/base64`) are embedded from their
  documented behaviour; the Unicode tables of `strconv.IsPrint` are a parameter.
* The two goroutines of a run are a transition system over the events "output stream ends"
  and "timer fires"; their order is the schedule.
-/

namespace GoPlayground

set_option autoImplicit false

/-! ## Errors and the connection read primitive -/

/-- The error values that `wsReadMessage` can return. -/
inductive GoError
  /-- The value `io.EOF`. -/
  | EOF
  /-- The value `io.ErrUnexpectedEOF`. -/
  | ErrUnexpectedEOF
  /-- The value `fmt.Errorf("non-final frames are not supported")`. -/
  | nonFinalFrame
  deriving DecidableEq, Repr

/-- The call `io.ReadFull(conn.Conn, buf)` for a buffer of `n` bytes on a stream that holds
`conn` and then ends.  Result: the buffer afterwards (zero-initialised, filled from the
front), the error, and the rest of the stream.  A zero-length buffer reads nothing; no byte
at all is `io.EOF`; fewer than `n` bytes is `io.ErrUnexpectedEOF`. -/
def readFull (conn : List Nat) (n : Nat) : List Nat × Option GoError × List Nat :=
  if n ≤ conn.length then (conn.take n, none, conn.drop n)
  else if conn.length = 0 then (List.replicate n 0, some GoError.EOF, [])
  else (conn ++ List.replicate (n - conn.length) 0, some GoError.ErrUnexpectedEOF, [])

/-- The Go conversion `byte(x)` of a non-negative `int`. -/
def byte (x : Nat) : Nat := x % 256

/-- The value of a 64-bit `int` whose unsigned bit pattern is `v % 2^64`. -/
def int64 (v : Nat) : Int :=
  if v % 2 ^ 64 < 2 ^ 63 then ((v % 2 ^ 64 : Nat) : Int) else ((v % 2 ^ 64 : Nat) : Int) - 2 ^ 64

/-! ## Frame codec: `wsReadMessage` and `wsSendMessage` -/

/-- The loop `for i := range p { p[i] ^= maskKey[i%4] }` of `wsReadMessage`, from index `i`
on. -/
def unmaskFrom (maskKey : List Nat) : Nat → List Nat → List Nat
  | _, [] => []
  | i, b :: p => (b ^^^ maskKey.getD (i % 4) 0) :: unmaskFrom maskKey (i + 1) p

/-- The unmasking step of `wsReadMessage` (lines 249-253) on the whole payload. -/
def unmask (maskKey : List Nat) (p : List Nat) : List Nat := unmaskFrom maskKey 0 p

/-- What a call of `wsReadMessage` does: it returns its three named results
`(messageType, p, err)` and leaves the rest of the stream, or it does not return because
`make([]byte, payloadLen)` panics or ends the process. -/
inductive ReadOutcome
  /-- Normal return with the named results and the unread rest of the stream. -/
  | returned (messageType : Nat) (p : List Nat) (err : Option GoError) (conn : List Nat)
  /-- Run-time panic of `make` (`makeslice: len out of range`): the length is negative or
  above the allocator limit of the runtime. -/
  | makeslicePanic (conn : List Nat)
  /-- The runtime ends the process in `make` (`fatal error: runtime: out of memory`): the
  length is within the allocator limit but the operating system does not give the memory. -/
  | outOfMemory (conn : List Nat)
  deriving DecidableEq, Repr

/-- The extended-length step of `wsReadMessage` (lines 222-235): from the 7-bit length field
and the stream to the final `payloadLen`, the read error, and the rest of the stream. -/
def readPayloadLen (payloadLen : Nat) (conn : List Nat) : Int × Option GoError × List Nat :=
  if payloadLen = 126 then
    match readFull conn 2 with
    | (_, some err, conn1) => (payloadLen, some err, conn1)
    | (extLen, none, conn1) =>
      (int64 (extLen.getD 0 0 <<< 8 ||| extLen.getD 1 0), none, conn1)
  else if payloadLen = 127 then
    match readFull conn 8 with
    | (_, some err, conn1) => (payloadLen, some err, conn1)
    | (extLen, none, conn1) =>
      (int64 (extLen.getD 0 0 <<< 56 ||| extLen.getD 1 0 <<< 48 ||| extLen.getD 2 0 <<< 40
          ||| extLen.getD 3 0 <<< 32 ||| extLen.getD 4 0 <<< 24 ||| extLen.getD 5 0 <<< 16
          ||| extLen.getD 6 0 <<< 8 ||| extLen.getD 7 0), none, conn1)
  else (payloadLen, none, conn)

/-- The function `wsReadMessage` (lines 211-261) on a stream holding `conn`.  The call
`make([]byte, payloadLen)` of line 244 comes before the payload is read and has no range
check before it; what it does depends on the machine, through two parameters: `maxAlloc` is
the allocator limit of the Go runtime (`maxAlloc` of `runtime/malloc.go`, `2^48` bytes on
linux/amd64), `memory` is the longest slice the operating system still gives the process.
A negative length or one above `maxAlloc` is a run-time panic, a length above `memory` ends
the process, any other length is allocated. -/
def wsReadMessage (maxAlloc memory : Nat) (conn : List Nat) : ReadOutcome :=
  match readFull conn 2 with
  | (_, some err, conn1) => ReadOutcome.returned 0 [] (some err) conn1
  | (header, none, conn1) =>
    let final : Bool := decide (header.getD 0 0 &&& 0x80 ≠ 0)
    let messageType := header.getD 0 0 &&& 0x0f
    let masked : Bool := decide (header.getD 1 0 &&& 0x80 ≠ 0)
    match readPayloadLen (header.getD 1 0 &&& 0x7f) conn1 with
    | (_, some err, conn2) => ReadOutcome.returned messageType [] (some err) conn2
    | (payloadLen, none, conn2) =>
      match (if masked then readFull conn2 4 else ([0, 0, 0, 0], none, conn2)) with
      | (_, some err, conn3) => ReadOutcome.returned messageType [] (some err) conn3
      | (maskKey, none, conn3) =>
        if payloadLen < 0 ∨ (maxAlloc : Int) < payloadLen then ReadOutcome.makeslicePanic conn3
        else if (memory : Int) < payloadLen then ReadOutcome.outOfMemory conn3
        else
          match readFull conn3 payloadLen.toNat with
          | (p, some err, conn4) => ReadOutcome.returned messageType p (some err) conn4
          | (p, none, conn4) =>
            let p1 := if masked then unmask maskKey p else p
            if !final then ReadOutcome.returned messageType p1 (some GoError.nonFinalFrame) conn4
            else ReadOutcome.returned messageType p1 none conn4

/-- The header that `wsSendMessage` builds for a message of `length` bytes (lines 265-277). -/
def wsSendHeader (length : Nat) : List Nat :=
  if length ≤ 125 then [0x81, byte length]
  else if length ≤ 65535 then [0x81, 126, byte (length >>> 8), byte length]
  else [0x81, 127] ++ [7, 6, 5, 4, 3, 2, 1, 0].map (fun i => byte (length >>> (8 * i)))

/-- The function `wsSendMessage` (lines 263-288): the bytes it hands to `conn.Conn.Write`,
header first, then the message. -/
def wsSendMessage (message : List Nat) : List Nat :=
  wsSendHeader message.length ++ message

/-! ## Session loop of `handleWebSocket` -/

/-- How the `for` loop of `handleWebSocket` (lines 41-62) ends. -/
inductive SessionEnd
  /-- `wsReadMessage` returned a non-nil error: `break` at line 49. -/
  | readError (err : GoError)
  /-- A frame of message type 8 was read: `break` at line 54. -/
  | closeFrame
  /-- The panic of `wsReadMessage` unwinds the handler. -/
  | panicked
  /-- The process ended out of memory inside `wsReadMessage`. -/
  | died
  /-- The model's iteration budget ran out (never the case from `handleWebSocket`). -/
  | outOfFuel
  deriving DecidableEq, Repr

/-- The `for` loop of `handleWebSocket`, at most `fuel` iterations: the source texts
`string(msg)` of the runs it starts with `go runCodeAndSendOutput`, in order, and how the
loop ends.  `maxAlloc` and `memory` are the two parameters of `wsReadMessage`. -/
def handleWebSocketLoop (maxAlloc memory : Nat) : Nat → List Nat → List (List Nat) × SessionEnd
  | 0, _ => ([], SessionEnd.outOfFuel)
  | fuel + 1, conn =>
    match wsReadMessage maxAlloc memory conn with
    | ReadOutcome.makeslicePanic _ => ([], SessionEnd.panicked)
    | ReadOutcome.outOfMemory _ => ([], SessionEnd.died)
    | ReadOutcome.returned messageType msg err conn1 =>
      match err with
      | some e => ([], SessionEnd.readError e)
      | none =>
        if messageType = 8 then ([], SessionEnd.closeFrame)
        else if messageType ≠ 1 then handleWebSocketLoop maxAlloc memory fuel conn1
        else
          let r := handleWebSocketLoop maxAlloc memory fuel conn1
          (msg :: r.1, r.2)

/-- The loop of `handleWebSocket` on an upgraded connection whose peer sends `conn` and then
closes.  Every successful read takes at least two bytes, so `conn.length + 1` iterations
are never used up. -/
def handleWebSocket (maxAlloc memory : Nat) (conn : List Nat) :
    List (List Nat) × SessionEnd :=
  handleWebSocketLoop maxAlloc memory (conn.length + 1) conn

/-! ## Wire layout of an inbound frame

The frames the claims quantify over, byte by byte as `wsReadMessage` takes them apart (lines
217-247): these definitions describe input, they are not code of the server. -/

/-- The three ways a frame header carries the payload length. -/
inductive LenForm
  /-- Length in the 7-bit field itself. -/
  | literal
  /-- Field 126, then a 16-bit big-endian length. -/
  | ext16
  /-- Field 127, then a 64-bit big-endian length. -/
  | ext64
  deriving DecidableEq, Repr

/-- The lengths a form can carry (for `ext64`: the non-negative `int` values). -/
def LenForm.fits : LenForm → Nat → Prop
  | LenForm.literal, n => n ≤ 125
  | LenForm.ext16, n => n ≤ 65535
  | LenForm.ext64, n => n < 2 ^ 63

instance (form : LenForm) (n : Nat) : Decidable (form.fits n) := by
  cases form <;> unfold LenForm.fits <;> infer_instance

/-- The 7-bit length field of a form for length `n`. -/
def LenForm.field : LenForm → Nat → Nat
  | LenForm.literal, n => n
  | LenForm.ext16, _ => 126
  | LenForm.ext64, _ => 127

/-- The big-endian extension bytes of a form for length `n`. -/
def LenForm.ext : LenForm → Nat → List Nat
  | LenForm.literal, _ => []
  | LenForm.ext16, n => [n / 2 ^ 8 % 256, n % 256]
  | LenForm.ext64, n =>
    [n / 2 ^ 56 % 256, n / 2 ^ 48 % 256, n / 2 ^ 40 % 256, n / 2 ^ 32 % 256,
     n / 2 ^ 24 % 256, n / 2 ^ 16 % 256, n / 2 ^ 8 % 256, n % 256]

/-- The bytes of one frame on the wire: first byte from the fin bit, the three reserved bits
`rsv` and the opcode; second byte from the mask bit and the length field; the length
extension; the mask key when there is one; the payload bytes as sent (`wire`). -/
def frameBytes (fin : Bool) (rsv opcode : Nat) (form : LenForm) (maskKey : Option (List Nat))
    (wire : List Nat) : List Nat :=
  [(if fin then 128 else 0) + 16 * rsv + opcode,
   (if maskKey.isSome then 128 else 0) + form.field wire.length]
    ++ form.ext wire.length ++ maskKey.getD [] ++ wire

/-- Big-endian value of a byte sequence. -/
def beValue (bs : List Nat) : Nat := bs.foldl (fun acc b => acc * 256 + b) 0

/-! ## Runes: `unicode/utf8` as used by `bufio.Reader.ReadRune` and `strings.Builder.WriteRune` -/

/-- The constant `utf8.RuneError`, U+FFFD. -/
def RuneError : Nat := 0xFFFD

/-- The function `utf8.ValidRune`: a code point up to U+10FFFF outside the surrogate range. -/
def ValidRune (r : Nat) : Bool := r < 0xD800 || (0xDFFF < r && r ≤ 0x10FFFF)

/-- The table `first` of `unicode/utf8`: information about the first byte of an encoding
(`0xF0` ASCII, `0xF1` invalid, otherwise accept-range index in the high nibble and size in
the low one). -/
def first (p0 : Nat) : Nat :=
  if p0 < 0x80 then 0xF0
  else if p0 < 0xC2 then 0xF1
  else if p0 < 0xE0 then 0x02
  else if p0 = 0xE0 then 0x13
  else if p0 < 0xED then 0x03
  else if p0 = 0xED then 0x23
  else if p0 < 0xF0 then 0x03
  else if p0 = 0xF0 then 0x34
  else if p0 < 0xF4 then 0x04
  else if p0 = 0xF4 then 0x44
  else 0xF1

/-- The table `acceptRanges` of `unicode/utf8`: the range allowed for the second byte. -/
def acceptRanges (i : Nat) : Nat × Nat :=
  match i with
  | 0 => (0x80, 0xBF)
  | 1 => (0xA0, 0xBF)
  | 2 => (0x80, 0x9F)
  | 3 => (0x90, 0xBF)
  | 4 => (0x80, 0x8F)
  | _ => (0, 0)

/-- The function `utf8.DecodeRune` (and `DecodeRuneInString`): the first rune of `p` and its
width in bytes; `(RuneError, 0)` on no input and `(RuneError, 1)` on an invalid encoding. -/
def DecodeRune (p : List Nat) : Nat × Nat :=
  match p with
  | [] => (RuneError, 0)
  | p0 :: _ =>
    let x := first p0
    if x ≥ 0xF0 then (if x = 0xF0 then p0 else RuneError, 1)
    else
      let sz := x &&& 7
      let accept := acceptRanges (x >>> 4)
      if p.length < sz then (RuneError, 1)
      else
        let b1 := p.getD 1 0
        if b1 < accept.1 ∨ accept.2 < b1 then (RuneError, 1)
        else if sz ≤ 2 then ((p0 &&& 0x1F) <<< 6 ||| (b1 &&& 0x3F), 2)
        else
          let b2 := p.getD 2 0
          if b2 < 0x80 ∨ 0xBF < b2 then (RuneError, 1)
          else if sz ≤ 3 then
            ((p0 &&& 0x0F) <<< 12 ||| (b1 &&& 0x3F) <<< 6 ||| (b2 &&& 0x3F), 3)
          else
            let b3 := p.getD 3 0
            if b3 < 0x80 ∨ 0xBF < b3 then (RuneError, 1)
            else
              ((p0 &&& 0x07) <<< 18 ||| (b1 &&& 0x3F) <<< 12 ||| (b2 &&& 0x3F) <<< 6
                ||| (b3 &&& 0x3F), 4)

/-- The function `utf8.AppendRune` on an empty slice: the UTF-8 encoding of `r`, the encoding
of `RuneError` for an invalid rune. -/
def AppendRune (r : Nat) : List Nat :=
  if r ≤ 0x7F then [byte r]
  else if r ≤ 0x7FF then [0xC0 ||| byte (r >>> 6), 0x80 ||| (byte r &&& 0x3F)]
  else if r > 0x10FFFF ∨ (0xD800 ≤ r ∧ r ≤ 0xDFFF) then
    [0xE0 ||| byte (RuneError >>> 12), 0x80 ||| (byte (RuneError >>> 6) &&& 0x3F),
     0x80 ||| (byte RuneError &&& 0x3F)]
  else if r ≤ 0xFFFF then
    [0xE0 ||| byte (r >>> 12), 0x80 ||| (byte (r >>> 6) &&& 0x3F), 0x80 ||| (byte r &&& 0x3F)]
  else
    [0xF0 ||| byte (r >>> 18), 0x80 ||| (byte (r >>> 12) &&& 0x3F),
     0x80 ||| (byte (r >>> 6) &&& 0x3F), 0x80 ||| (byte r &&& 0x3F)]

/-- The method `(*bufio.Reader).ReadRune` on a reader whose underlying stream holds `reader`
and then ends: `none` is the error `io.EOF`, otherwise the rune and the rest of the stream.
A byte below `0x80` is returned as it is, anything else goes through `DecodeRune`. -/
def ReadRune (reader : List Nat) : Option (Nat × List Nat) :=
  match reader with
  | [] => none
  | b :: rest =>
    if b ≥ 0x80 then some ((DecodeRune reader).1, reader.drop (DecodeRune reader).2)
    else some (b, rest)

/-- The UTF-8 encoding of a sequence of runes. -/
def encodeRunes : List Nat → List Nat
  | [] => []
  | r :: rs => AppendRune r ++ encodeRunes rs

/-- Valid UTF-8 text: the encoding of a sequence of valid runes. -/
def validUTF8 (s : List Nat) : Prop :=
  ∃ rs : List Nat, (∀ r ∈ rs, ValidRune r = true) ∧ s = encodeRunes rs

/-! ## Output draining loop of `runCodeAndSendOutput` -/

/-- The calls the run makes on the output emitter: `sendOutput(conn, data)`,
`sendError(conn, data)` and `sendClearScreen(conn)`. -/
inductive Event
  /-- One call `sendOutput(conn, data)`. -/
  | Output (data : List Nat)
  /-- One call `sendError(conn, data)`. -/
  | Error (data : List Nat)
  /-- One call `sendClearScreen(conn)`. -/
  | Clear
  deriving DecidableEq, Repr

/-- The statement `if buffer.Len() > 0 { sendOutput(conn, buffer.String()) }` (lines 116-119
without the reset, and lines 129-131). -/
def flush (buffer : List Nat) : List Event :=
  if buffer.length > 0 then [Event.Output buffer] else []

/-- The `for` loop of the output-draining goroutine (lines 106-131) with the final flush: the
events emitted, in order, from a reader holding `reader` and a `strings.Builder` holding
`buffer`.  Every iteration takes at least one byte, so `fuel = reader.length` iterations are
enough; they are what `drain` gives. -/
def drainLoop : Nat → List Nat → List Nat → List Event
  | 0, _, buffer => flush buffer
  | fuel + 1, reader, buffer =>
    match ReadRune reader with
    | none => flush buffer
    | some (r, reader1) =>
      if r = 0x0c then
        flush buffer ++ [Event.Clear] ++ drainLoop fuel reader1 []
      else
        let buffer1 := buffer ++ AppendRune r
        if r = 0x0a ∨ buffer1.length ≥ 1024 then
          Event.Output buffer1 :: drainLoop fuel reader1 []
        else drainLoop fuel reader1 buffer1

/-- The output-draining goroutine on the combined output stream `stream` (the bytes of
`io.MultiReader(stdout, stderr)`), starting with an empty buffer. -/
def drain (stream : List Nat) : List Event := drainLoop stream.length stream []

/-! ## Output emitter: `sendOutput`, `sendError`, `sendClearScreen` -/

/-- The bytes of an ASCII string literal of the source. -/
def ascii (s : String) : List Nat := s.data.map Char.toNat

/-- The digit `"0123456789abcdef"[d]` of `strconv`. -/
def lowerhex (d : Nat) : Nat := if d < 10 then 0x30 + d else 0x57 + d

/-- The function `strconv.IsPrint`: decided in the code itself up to U+00FF; above that it
looks the rune up in the Unicode tables of `strconv`, taken here as the parameter `table`. -/
def IsPrint (table : Nat → Bool) (r : Nat) : Bool :=
  if r ≤ 0xFF then
    if 0x20 ≤ r ∧ r ≤ 0x7E then true
    else if 0xA1 ≤ r ∧ r ≤ 0xFF then decide (r ≠ 0xAD)
    else false
  else table r

/-- The function `appendEscapedRune` of `strconv` for the double quote, as `strconv.Quote`
calls it (`ASCIIonly` and `graphicOnly` false): the bytes appended for the rune `r`. -/
def appendEscapedRune (table : Nat → Bool) (r : Nat) : List Nat :=
  if r = 0x22 ∨ r = 0x5C then [0x5C, byte r]
  else if IsPrint table r then AppendRune r
  else if r = 0x07 then [0x5C, 0x61]
  else if r = 0x08 then [0x5C, 0x62]
  else if r = 0x0C then [0x5C, 0x66]
  else if r = 0x0A then [0x5C, 0x6E]
  else if r = 0x0D then [0x5C, 0x72]
  else if r = 0x09 then [0x5C, 0x74]
  else if r = 0x0B then [0x5C, 0x76]
  else if r < 0x20 ∨ r = 0x7F then
    [0x5C, 0x78, lowerhex (byte r >>> 4), lowerhex (byte r &&& 0xF)]
  else if ValidRune r = false then
    [0x5C, 0x75] ++ [12, 8, 4, 0].map (fun s => lowerhex (RuneError >>> s &&& 0xF))
  else if r < 0x10000 then
    [0x5C, 0x75] ++ [12, 8, 4, 0].map (fun s => lowerhex (r >>> s &&& 0xF))
  else [0x5C, 0x55] ++ [28, 24, 20, 16, 12, 8, 4, 0].map (fun s => lowerhex (r >>> s &&& 0xF))

/-- The loop of `appendQuotedWith` of `strconv` over the string `s`: one rune per iteration,
a byte that is not valid UTF-8 written as `\x` and two hex digits.  Every iteration takes at
least one byte, so `fuel = s.length` iterations are enough. -/
def quoteLoop (table : Nat → Bool) : Nat → List Nat → List Nat
  | 0, _ => []
  | fuel + 1, s =>
    match s with
    | [] => []
    | s0 :: _ =>
      let d := if s0 ≥ 0x80 then DecodeRune s else (s0, 1)
      if d.2 = 1 ∧ d.1 = RuneError then
        [0x5C, 0x78, lowerhex (s0 >>> 4), lowerhex (s0 &&& 0xF)]
          ++ quoteLoop table fuel (s.drop d.2)
      else appendEscapedRune table d.1 ++ quoteLoop table fuel (s.drop d.2)

/-- The function `strconv.Quote`, which is what the verb `%q` of `fmt.Sprintf` prints for a
string: a double-quoted Go string literal. -/
def Quote (table : Nat → Bool) (s : List Nat) : List Nat :=
  [0x22] ++ quoteLoop table s.length s ++ [0x22]

/-- The message `msg` built in `sendOutput` (line 148). -/
def sendOutputMsg (table : Nat → Bool) (output : List Nat) : List Nat :=
  ascii "\x7b\"type\":\"output\",\"data\":" ++ Quote table output ++ ascii "\x7d"

/-- The message `msg` built in `sendError` (line 156). -/
def sendErrorMsg (table : Nat → Bool) (errMsg : List Nat) : List Nat :=
  ascii "\x7b\"type\":\"error\",\"data\":" ++ Quote table errMsg ++ ascii "\x7d"

/-- The message `msg` of `sendClearScreen` (line 164). -/
def sendClearScreenMsg : List Nat := ascii "\x7b\"type\":\"clear\"\x7d"

/-- The function `sendOutput` (lines 147-153): the bytes written to the connection. -/
def sendOutput (table : Nat → Bool) (output : List Nat) : List Nat :=
  wsSendMessage (sendOutputMsg table output)

/-- The function `sendError` (lines 155-161): the bytes written to the connection. -/
def sendError (table : Nat → Bool) (errMsg : List Nat) : List Nat :=
  wsSendMessage (sendErrorMsg table errMsg)

/-- The function `sendClearScreen` (lines 163-169): the bytes written to the connection. -/
def sendClearScreen : List Nat := wsSendMessage sendClearScreenMsg

/-! ## JSON string literals (RFC 8259, section 7) -/

/-- A hexadecimal digit. -/
def isHexDigit (c : Nat) : Bool :=
  (0x30 ≤ c && c ≤ 0x39) || (0x41 ≤ c && c ≤ 0x46) || (0x61 ≤ c && c ≤ 0x66)

/-- The part of a JSON string literal after the opening quote: unescaped characters from
U+0020 on other than the quote and the backslash, the escapes `\"`, `\\`, `\/`, `\b`, `\f`,
`\n`, `\r`, `\t` and `\u` with four hex digits, and the closing quote as the last byte. -/
def jsonStringTail : List Nat → Bool
  | [] => false
  | c :: rest =>
    if c = 0x22 then rest.isEmpty
    else if c = 0x5C then
      match rest with
      | [] => false
      | e :: rest1 =>
        if e = 0x75 then
          match rest1 with
          | h1 :: h2 :: h3 :: h4 :: rest2 =>
            isHexDigit h1 && isHexDigit h2 && isHexDigit h3 && isHexDigit h4 && jsonStringTail rest2
          | _ => false
        else if e = 0x22 ∨ e = 0x5C ∨ e = 0x2F ∨ e = 0x62 ∨ e = 0x66 ∨ e = 0x6E ∨ e = 0x72
            ∨ e = 0x74 then jsonStringTail rest1
        else false
    else if c < 0x20 then false
    else jsonStringTail rest

/-- A byte sequence that is one JSON string literal. -/
def isJSONString (lit : List Nat) : Bool :=
  match lit with
  | [] => false
  | c :: tail => c = 0x22 && jsonStringTail tail

/-! ## Data of the events of a run -/

/-- The data of all `Output` events of a sequence of events, concatenated in order. -/
def outputData : List Event → List Nat
  | [] => []
  | Event.Output d :: es => d ++ outputData es
  | Event.Error _ :: es => outputData es
  | Event.Clear :: es => outputData es

/-! ## Handshake: `wsHandshake`, with `crypto/sha1` and `encoding/base64` -/

/-- Rotation to the left of a 32-bit word by `n` bits (`bits.RotateLeft32`). -/
def rotl32 (x n : Nat) : Nat := (x <<< n ||| x >>> (32 - n)) % 2 ^ 32

/-- Padding of SHA-1 (FIPS 180-4): the byte `0x80`, zero bytes up to 56 modulo 64, and the
length of the message in bits as eight big-endian bytes. -/
def sha1Pad (msg : List Nat) : List Nat :=
  msg ++ [0x80] ++ List.replicate ((119 - msg.length % 64) % 64) 0
    ++ [7, 6, 5, 4, 3, 2, 1, 0].map (fun i => (8 * msg.length) >>> (8 * i) % 256)

/-- The first `n` big-endian 32-bit words of a block. -/
def blockWords : Nat → List Nat → List Nat
  | 0, _ => []
  | n + 1, b =>
    (b.getD 0 0 <<< 24 ||| b.getD 1 0 <<< 16 ||| b.getD 2 0 <<< 8 ||| b.getD 3 0)
      :: blockWords n (b.drop 4)

/-- The message schedule of SHA-1: `n` more words after the words `w`, each the rotation by
one bit of the XOR of the words 3, 8, 14 and 16 places back. -/
def schedule : Nat → List Nat → List Nat
  | 0, w => w
  | n + 1, w =>
    let t := w.length
    schedule n (w ++ [rotl32 (w.getD (t - 3) 0 ^^^ w.getD (t - 8) 0 ^^^ w.getD (t - 14) 0
      ^^^ w.getD (t - 16) 0) 1])

/-- The five 32-bit words of the SHA-1 state. -/
structure Sha1State where
  /-- Word `a` (`h0`). -/
  a : Nat
  /-- Word `b` (`h1`). -/
  b : Nat
  /-- Word `c` (`h2`). -/
  c : Nat
  /-- Word `d` (`h3`). -/
  d : Nat
  /-- Word `e` (`h4`). -/
  e : Nat
  deriving DecidableEq, Repr

/-- Round `t` of the SHA-1 compression function with schedule word `wt`. -/
def sha1Round (st : Sha1State) (t wt : Nat) : Sha1State :=
  let f := if t < 20 then (st.b &&& st.c) ||| ((st.b ^^^ 0xFFFFFFFF) &&& st.d)
    else if t < 40 then st.b ^^^ st.c ^^^ st.d
    else if t < 60 then (st.b &&& st.c) ||| (st.b &&& st.d) ||| (st.c &&& st.d)
    else st.b ^^^ st.c ^^^ st.d
  let k := if t < 20 then 0x5A827999 else if t < 40 then 0x6ED9EBA1
    else if t < 60 then 0x8F1BBCDC else 0xCA62C1D6
  { a := (rotl32 st.a 5 + f + st.e + wt + k) % 2 ^ 32, b := st.a, c := rotl32 st.b 30,
    d := st.c, e := st.d }

/-- The rounds over the schedule words `ws`, from round `t` on. -/
def sha1Rounds : Sha1State → Nat → List Nat → Sha1State
  | st, _, [] => st
  | st, t, wt :: ws => sha1Rounds (sha1Round st t wt) (t + 1) ws

/-- The compression of one 64-byte block into the hash value `h`. -/
def sha1Block (h : Sha1State) (block : List Nat) : Sha1State :=
  let st := sha1Rounds h 0 (schedule 64 (blockWords 16 block))
  { a := (h.a + st.a) % 2 ^ 32, b := (h.b + st.b) % 2 ^ 32, c := (h.c + st.c) % 2 ^ 32,
    d := (h.d + st.d) % 2 ^ 32, e := (h.e + st.e) % 2 ^ 32 }

/-- The first `n` 64-byte blocks of `data`, compressed one after the other. -/
def sha1Blocks : Nat → Sha1State → List Nat → Sha1State
  | 0, h, _ => h
  | n + 1, h, data => sha1Blocks n (sha1Block h (data.take 64)) (data.drop 64)

/-- The four big-endian bytes of a 32-bit word. -/
def wordBytes (x : Nat) : List Nat := [x >>> 24 % 256, x >>> 16 % 256, x >>> 8 % 256, x % 256]

/-- SHA-1 (FIPS 180-4), what `sha1.New()`, `hash.Write(msg)` and `hash.Sum(nil)` of
`crypto/sha1` compute: the 20-byte digest of `msg`. -/
def sha1 (msg : List Nat) : List Nat :=
  let h := sha1Blocks ((sha1Pad msg).length / 64)
    { a := 0x67452301, b := 0xEFCDAB89, c := 0x98BADCFE, d := 0x10325476, e := 0xC3D2E1F0 }
    (sha1Pad msg)
  wordBytes h.a ++ wordBytes h.b ++ wordBytes h.c ++ wordBytes h.d ++ wordBytes h.e

/-- The alphabet of `base64.StdEncoding` (RFC 4648, section 4). -/
def encodeStd (i : Nat) : Nat :=
  (ascii "ABCDEFGHIJKLMNOPQRSTUVWXYZabcdefghijklmnopqrstuvwxyz0123456789+/").getD i 0

/-- The method `base64.StdEncoding.EncodeToString`: every three bytes become four characters,
and a last group of one or two bytes is padded with `=`. -/
def base64Encode : List Nat → List Nat
  | [] => []
  | [x] => [encodeStd (x >>> 2), encodeStd ((x &&& 3) <<< 4), 0x3D, 0x3D]
  | [x, y] =>
    [encodeStd (x >>> 2), encodeStd ((x &&& 3) <<< 4 ||| y >>> 4), encodeStd ((y &&& 15) <<< 2),
      0x3D]
  | x :: y :: z :: rest =>
    [encodeStd (x >>> 2), encodeStd ((x &&& 3) <<< 4 ||| y >>> 4),
      encodeStd ((y &&& 15) <<< 2 ||| z >>> 6), encodeStd (z &&& 63)] ++ base64Encode rest

/-- The value `acceptKey` of `wsHandshake` (lines 179-181) for the header value `key`. -/
def acceptKey (key : List Nat) : List Nat :=
  base64Encode (sha1 (key ++ ascii "258EAFA5-E914-47DA-95CA-C5AB0DC85B11"))

/-- The function `wsHandshake` (lines 173-209) for the value `key` of the header
`Sec-WebSocket-Key`; `hijack` tells whether the response writer is a `http.Hijacker` whose
`Hijack` succeeds.  Result: `none` when an error is returned, otherwise the response bytes
written to the connection (the writes are taken to succeed). -/
def wsHandshake (key : List Nat) (hijack : Bool) : Option (List Nat) :=
  if key = [] then none
  else if !hijack then none
  else
    some (ascii "HTTP/1.1 101 Switching Protocols\r\n" ++ ascii "Upgrade: websocket\r\n"
      ++ ascii "Connection: Upgrade\r\n" ++ ascii "Sec-WebSocket-Accept: " ++ acceptKey key
      ++ ascii "\r\n\r\n")

/-! ## The two goroutines of a started run (lines 102-145) -/

/-- What the two goroutines of a run wait for once `cmd.Start()` has succeeded. -/
inductive RunEvent
  /-- The combined output stream ends: `reader.ReadRune()` returns `io.EOF` in the
  output-draining goroutine, which leaves its loop and signals `done`. -/
  | streamEnd
  /-- The call `time.Sleep(2 * time.Minute)` returns in the timeout goroutine. -/
  | timerFires
  deriving DecidableEq, Repr

/-- The state of a started run, as far as the timeout goroutine is concerned. -/
structure RunState where
  /-- Whether `cmd.Process != nil`: `cmd.Start()` sets the field and nothing resets it. -/
  processSet : Bool
  /-- Whether the output-draining goroutine is still in its loop. -/
  draining : Bool
  /-- Whether the timeout goroutine is still in `time.Sleep`. -/
  sleeping : Bool
  /-- Whether `cmd.Process.Kill()` has been called. -/
  killed : Bool
  /-- The calls of `sendError` made by the timeout goroutine, in order. -/
  sent : List Event
  deriving DecidableEq, Repr

/-- The text of the timeout error (line 139). -/
def timeoutMessage : List Nat := ascii "Execution timeout, terminated"

/-- The run right after `cmd.Start()` has succeeded and both goroutines are started. -/
def runStarted : RunState :=
  { processSet := true, draining := true, sleeping := true, killed := false, sent := [] }

/-- One step of a run.  Stream end only ends the draining loop: nothing stops the timeout
goroutine.  When its sleep returns it tests `cmd.Process != nil` and then kills and calls
`sendError` (lines 136-140). -/
def runStep (st : RunState) : RunEvent → RunState
  | RunEvent.streamEnd => { st with draining := false }
  | RunEvent.timerFires =>
    if st.sleeping then
      if st.processSet then
        { st with sleeping := false, killed := true,
                  sent := st.sent ++ [Event.Error timeoutMessage] }
      else { st with sleeping := false }
    else st

/-- The state of a started run after the events `evs`, in that order. -/
def runTrace (evs : List RunEvent) : RunState := evs.foldl runStep runStarted

/-! ## Arithmetic of bytes and lengths -/

set_option maxRecDepth 100000 in
theorem byte_bits : ∀ b < 256,
    ((b &&& 0x80 ≠ 0) ↔ 128 ≤ b) ∧ b &&& 0x0f = b % 16 ∧ b &&& 0x7f = b % 128 := by
  decide

theorem lor_add (x b i : Nat) (hx : 2 ^ i ∣ x) (hb : b < 2 ^ i) : x ||| b = x + b := by
  obtain ⟨a, rfl⟩ := hx
  rw [Nat.mul_add_lt_is_or hb]

theorem shl_lor (a b i : Nat) (hb : b < 2 ^ i) : a <<< i ||| b = a * 2 ^ i + b := by
  rw [Nat.shiftLeft_eq, Nat.mul_comm, Nat.mul_add_lt_is_or hb]

theorem int64_of_lt (n : Nat) (h : n < 2 ^ 63) : int64 n = (n : Int) := by
  have h1 : n % 2 ^ 64 = n := Nat.mod_eq_of_lt (by omega)
  unfold int64
  rw [h1, if_pos h]

theorem int64_of_ge (v : Nat) (h1 : 2 ^ 63 ≤ v) (h2 : v < 2 ^ 64) : int64 v < 0 := by
  have h3 : v % 2 ^ 64 = v := Nat.mod_eq_of_lt h2
  unfold int64
  rw [h3, if_neg (by omega)]
  omega

theorem be16_value (n : Nat) (h : n ≤ 65535) : (n / 2 ^ 8 % 256) <<< 8 ||| n % 256 = n := by
  rw [shl_lor _ _ 8 (by omega)]
  omega

theorem be64_lor (e0 e1 e2 e3 e4 e5 e6 e7 : Nat) (h1 : e1 < 256)
    (h2 : e2 < 256) (h3 : e3 < 256) (h4 : e4 < 256) (h5 : e5 < 256) (h6 : e6 < 256)
    (h7 : e7 < 256) :
    e0 <<< 56 ||| e1 <<< 48 ||| e2 <<< 40 ||| e3 <<< 32 ||| e4 <<< 24 ||| e5 <<< 16
      ||| e6 <<< 8 ||| e7
    = e0 * 2 ^ 56 + e1 * 2 ^ 48 + e2 * 2 ^ 40 + e3 * 2 ^ 32 + e4 * 2 ^ 24 + e5 * 2 ^ 16
      + e6 * 2 ^ 8 + e7 := by
  simp only [Nat.shiftLeft_eq]
  rw [lor_add (e0 * 2 ^ 56) (e1 * 2 ^ 48) 56 (by omega) (by omega),
    lor_add (e0 * 2 ^ 56 + e1 * 2 ^ 48) (e2 * 2 ^ 40) 48 (by omega) (by omega),
    lor_add (e0 * 2 ^ 56 + e1 * 2 ^ 48 + e2 * 2 ^ 40) (e3 * 2 ^ 32) 40 (by omega) (by omega),
    lor_add (e0 * 2 ^ 56 + e1 * 2 ^ 48 + e2 * 2 ^ 40 + e3 * 2 ^ 32) (e4 * 2 ^ 24) 32
      (by omega) (by omega),
    lor_add (e0 * 2 ^ 56 + e1 * 2 ^ 48 + e2 * 2 ^ 40 + e3 * 2 ^ 32 + e4 * 2 ^ 24)
      (e5 * 2 ^ 16) 24 (by omega) (by omega),
    lor_add (e0 * 2 ^ 56 + e1 * 2 ^ 48 + e2 * 2 ^ 40 + e3 * 2 ^ 32 + e4 * 2 ^ 24 + e5 * 2 ^ 16)
      (e6 * 2 ^ 8) 16 (by omega) (by omega),
    lor_add (e0 * 2 ^ 56 + e1 * 2 ^ 48 + e2 * 2 ^ 40 + e3 * 2 ^ 32 + e4 * 2 ^ 24 + e5 * 2 ^ 16
      + e6 * 2 ^ 8) e7 8 (by omega) (by omega)]

theorem be64_value (n : Nat) (h : n < 2 ^ 64) :
    (n / 2 ^ 56 % 256) <<< 56 ||| (n / 2 ^ 48 % 256) <<< 48 ||| (n / 2 ^ 40 % 256) <<< 40
      ||| (n / 2 ^ 32 % 256) <<< 32 ||| (n / 2 ^ 24 % 256) <<< 24 ||| (n / 2 ^ 16 % 256) <<< 16
      ||| (n / 2 ^ 8 % 256) <<< 8 ||| n % 256 = n := by
  rw [be64_lor _ _ _ _ _ _ _ _ (Nat.mod_lt _ (by decide))
    (Nat.mod_lt _ (by decide)) (Nat.mod_lt _ (by decide)) (Nat.mod_lt _ (by decide))
    (Nat.mod_lt _ (by decide)) (Nat.mod_lt _ (by decide)) (Nat.mod_lt _ (by decide))]
  omega

/-! ## Reading one well-formed frame -/

theorem readFull_append (a rest : List Nat) :
    readFull (a ++ rest) a.length = (a, none, rest) := by
  simp [readFull]

theorem readPayloadLen_frame (form : LenForm) (n : Nat) (rest : List Nat) (h : form.fits n) :
    readPayloadLen (form.field n) (form.ext n ++ rest) = ((n : Int), none, rest) := by
  cases form with
  | literal =>
    have h1 : n ≤ 125 := h
    simp only [LenForm.field, LenForm.ext, readPayloadLen, List.nil_append]
    rw [if_neg (by omega), if_neg (by omega)]
  | ext16 =>
    have h1 : n ≤ 65535 := h
    have h2 := readFull_append [n / 2 ^ 8 % 256, n % 256] rest
    simp only [List.length_cons, List.length_nil] at h2
    simp only [LenForm.field, LenForm.ext, readPayloadLen, if_true, h2]
    simp only [List.getD_cons_zero, List.getD_cons_succ]
    rw [be16_value n h1, int64_of_lt n (by omega)]
  | ext64 =>
    have h1 : n < 2 ^ 63 := h
    have h2 := readFull_append (LenForm.ext64.ext n) rest
    simp only [LenForm.ext, List.length_cons, List.length_nil] at h2
    simp only [LenForm.field, LenForm.ext, readPayloadLen, h2]
    simp only [List.getD_cons_zero, List.getD_cons_succ]
    rw [be64_value n (by omega), int64_of_lt n h1]
    simp

theorem field_lt (form : LenForm) (n : Nat) (h : form.fits n) : form.field n < 128 := by
  cases form with
  | literal =>
    have h1 : n ≤ 125 := h
    simp only [LenForm.field]
    omega
  | ext16 => simp [LenForm.field]
  | ext64 => simp [LenForm.field]

theorem wsReadMessage_frame (maxAlloc memory : Nat) (fin : Bool) (rsv opcode : Nat)
    (form : LenForm) (maskKey : Option (List Nat)) (wire rest : List Nat) (hr : rsv < 8)
    (ho : opcode < 16) (hf : form.fits wire.length) (hk : ∀ K, maskKey = some K → K.length = 4)
    (ha : wire.length ≤ maxAlloc) (hm : wire.length ≤ memory) :
    wsReadMessage maxAlloc memory (frameBytes fin rsv opcode form maskKey wire ++ rest) =
      ReadOutcome.returned opcode
        (match maskKey with
          | some K => unmask K wire
          | none => wire)
        (if fin then none else some GoError.nonFinalFrame) rest := by
  have hfl := field_lt form wire.length hf
  have hb0 : (if fin then 128 else 0) + 16 * rsv + opcode < 256 := by
    cases fin <;> simp <;> omega
  have hb1 : (if maskKey.isSome then 128 else 0) + form.field wire.length < 256 := by
    cases maskKey <;> simp <;> omega
  obtain ⟨h80, h0f, -⟩ := byte_bits _ hb0
  obtain ⟨m80, -, m7f⟩ := byte_bits _ hb1
  have hop : ((if fin then 128 else 0) + 16 * rsv + opcode) % 16 = opcode := by
    cases fin <;> simp <;> omega
  have hfin : (128 ≤ (if fin then 128 else 0) + 16 * rsv + opcode) ↔ fin = true := by
    cases fin
    · simp; omega
    · simp; omega
  have hfield : ((if maskKey.isSome then 128 else 0) + form.field wire.length) % 128
      = form.field wire.length := by
    cases maskKey
    · simp; omega
    · simp; omega
  have hmask : (128 ≤ (if maskKey.isSome then 128 else 0) + form.field wire.length)
      ↔ maskKey.isSome = true := by
    cases maskKey
    · simp; omega
    · simp
  have hrd : ∀ (b0 b1 : Nat) (tl : List Nat), readFull (b0 :: b1 :: tl) 2 = ([b0, b1], none, tl) :=
    fun b0 b1 tl => readFull_append [b0, b1] tl
  have hpanic : ¬ (((wire.length : Nat) : Int) < 0 ∨ ((maxAlloc : Nat) : Int) < wire.length) := by
    omega
  have hoom : ¬ (((memory : Nat) : Int) < wire.length) := by omega
  unfold wsReadMessage frameBytes
  simp only [List.cons_append, List.nil_append, List.append_assoc, hrd,
    List.getD_cons_zero, List.getD_cons_succ, h80, h0f, m80, m7f, hop, hfin, hfield, hmask,
    readPayloadLen_frame form wire.length _ hf, if_neg hpanic, if_neg hoom]
  cases maskKey with
  | none =>
    have h3 := readFull_append wire rest
    cases fin <;> simp [h3, if_neg hpanic, if_neg hoom]
  | some K =>
    have h4 := hk K rfl
    have h5 := readFull_append K (wire ++ rest)
    rw [h4] at h5
    have h3 := readFull_append wire rest
    cases fin <;> simp [h5, h3, if_neg hpanic, if_neg hoom]

/-! ## The masking step -/

theorem unmaskFrom_length (K : List Nat) (i : Nat) (p : List Nat) :
    (unmaskFrom K i p).length = p.length := by
  induction p generalizing i with
  | nil => rfl
  | cons b p ih => simp [unmaskFrom, ih]

theorem unmaskFrom_twice (K : List Nat) (i : Nat) (p : List Nat) :
    unmaskFrom K i (unmaskFrom K i p) = p := by
  induction p generalizing i with
  | nil => rfl
  | cons b p ih =>
    simp only [unmaskFrom, ih]
    rw [Nat.xor_assoc, Nat.xor_self, Nat.xor_zero]

theorem unmaskFrom_of_getD (K : List Nat) (j : Nat) (wire p : List Nat)
    (hl : wire.length = p.length)
    (hw : ∀ i, i < p.length → wire.getD i 0 = p.getD i 0 ^^^ K.getD ((j + i) % 4) 0) :
    unmaskFrom K j wire = p := by
  induction wire generalizing j p with
  | nil =>
    cases p with
    | nil => rfl
    | cons a p => simp at hl
  | cons w wire ih =>
    cases p with
    | nil => simp at hl
    | cons a p =>
      have h0 := hw 0 (by simp)
      simp only [List.getD_cons_zero, Nat.add_zero] at h0
      have htl : unmaskFrom K (j + 1) wire = p := by
        apply ih (j + 1) p (by simpa using hl)
        intro i hi
        have h1 := hw (i + 1) (by simpa using hi)
        simp only [List.getD_cons_succ] at h1
        rw [h1]
        congr 3
        omega
      simp only [unmaskFrom, htl, h0]
      rw [Nat.xor_assoc, Nat.xor_self, Nat.xor_zero]

theorem unmask_of_getD (K wire p : List Nat) (hl : wire.length = p.length)
    (hw : ∀ i, i < p.length → wire.getD i 0 = p.getD i 0 ^^^ K.getD (i % 4) 0) :
    unmask K wire = p := by
  apply unmaskFrom_of_getD K 0 wire p hl
  intro i hi
  rw [Nat.zero_add]
  exact hw i hi

/-! ## The header written by `wsSendMessage` -/

theorem wsSendHeader_literal (n : Nat) (h : n ≤ 125) : wsSendHeader n = [0x81, n] := by
  unfold wsSendHeader byte
  rw [if_pos h, Nat.mod_eq_of_lt (by omega)]

theorem wsSendHeader_ext16 (n : Nat) (h1 : 126 ≤ n) (h2 : n ≤ 65535) :
    wsSendHeader n = [0x81, 126] ++ LenForm.ext16.ext n := by
  unfold wsSendHeader byte
  rw [if_neg (by omega), if_pos h2]
  simp [LenForm.ext, Nat.shiftRight_eq_div_pow]

theorem wsSendHeader_ext64 (n : Nat) (h1 : 65536 ≤ n) :
    wsSendHeader n = [0x81, 127] ++ LenForm.ext64.ext n := by
  unfold wsSendHeader byte
  rw [if_neg (by omega), if_neg (by omega)]
  simp [LenForm.ext, Nat.shiftRight_eq_div_pow]

theorem wsSendMessage_eq_frameBytes (p : List Nat) (h : p.length < 2 ^ 63) :
    ∃ form : LenForm, form.fits p.length ∧ wsSendMessage p = frameBytes true 0 1 form none p := by
  by_cases h1 : p.length ≤ 125
  · refine ⟨LenForm.literal, h1, ?_⟩
    simp [wsSendMessage, wsSendHeader_literal p.length h1, frameBytes, LenForm.field, LenForm.ext]
  · by_cases h2 : p.length ≤ 65535
    · refine ⟨LenForm.ext16, h2, ?_⟩
      simp [wsSendMessage, wsSendHeader_ext16 p.length (by omega) h2, frameBytes, LenForm.field]
    · refine ⟨LenForm.ext64, h, ?_⟩
      simp [wsSendMessage, wsSendHeader_ext64 p.length (by omega), frameBytes, LenForm.field]

theorem ext_bytes (form : LenForm) (n : Nat) (h : form.fits n) :
    (∀ b ∈ form.ext n, b < 256) ∧ (form ≠ LenForm.literal → beValue (form.ext n) = n) := by
  cases form with
  | literal => simp [LenForm.ext]
  | ext16 =>
    have h1 : n ≤ 65535 := h
    refine ⟨?_, fun _ => ?_⟩
    · intro b hb
      simp only [LenForm.ext, List.mem_cons, List.mem_singleton, List.mem_nil_iff, or_false] at hb
      omega
    · simp only [LenForm.ext, beValue, List.foldl_cons, List.foldl_nil]
      omega
  | ext64 =>
    have h1 : n < 2 ^ 63 := h
    refine ⟨?_, fun _ => ?_⟩
    · intro b hb
      simp only [LenForm.ext, List.mem_cons, List.mem_singleton, List.mem_nil_iff, or_false] at hb
      omega
    · simp only [LenForm.ext, beValue, List.foldl_cons, List.foldl_nil]
      omega

/-! ## Claims on the frame codec -/

/-- C1. Frame round-trip: for every payload `p` (its length an `int`, so below `2^63`, and
within what `make` can allocate on the reading machine; the lengths 0, 1, 125, 126, 65535 and
65536 in particular), `wsReadMessage` on exactly the bytes that `wsSendMessage` writes for `p`
returns no error, message type 1 and the payload `p`, and leaves nothing of the written bytes
unread. -/
theorem wsReadMessage_wsSendMessage_roundtrip (maxAlloc memory : Nat) (p : List Nat)
    (h : p.length < 2 ^ 63) (ha : p.length ≤ maxAlloc) (hm : p.length ≤ memory) :
    wsReadMessage maxAlloc memory (wsSendMessage p) = ReadOutcome.returned 1 p none [] := by
  obtain ⟨form, hfit, heq⟩ := wsSendMessage_eq_frameBytes p h
  have hr := wsReadMessage_frame maxAlloc memory true 0 1 form none p [] (by decide) (by decide)
    hfit (fun K hK => by cases hK) ha hm
  rw [List.append_nil] at hr
  rw [heq, hr]
  rfl

theorem wsReadMessage_wsSendMessage_roundtrip_witness :
    ([104, 105].length < 2 ^ 63 ∧ [104, 105].length ≤ 2 ^ 48 ∧ [104, 105].length ≤ 2 ^ 30) ∧
      wsReadMessage (2 ^ 48) (2 ^ 30) (wsSendMessage [104, 105])
        = ReadOutcome.returned 1 [104, 105] none [] :=
  ⟨by decide, wsReadMessage_wsSendMessage_roundtrip (2 ^ 48) (2 ^ 30) [104, 105] (by decide)
    (by decide) (by decide)⟩

/-- C2. Decode of a masked client frame: for every opcode `o` below 16 (and any reserved
bits), every 4-byte key `K`, every payload `p` that `make` can allocate on the machine
(`p.length` at most `maxAlloc` and `memory`) and each of the three length forms that can
carry `p.length`, when the stream holds the final frame with the mask bit set, the key `K`
and the bytes `wire` with `wire[i] = p[i] XOR K[i mod 4]`, `wsReadMessage` returns no error,
message type `o` and payload exactly `p`, and leaves what follows the frame. -/
theorem wsReadMessage_masked_frame (maxAlloc memory : Nat) (o rsv : Nat) (form : LenForm)
    (K p wire rest : List Nat) (ho : o < 16) (hr : rsv < 8) (hK : K.length = 4)
    (hf : form.fits p.length) (ha : p.length ≤ maxAlloc) (hm : p.length ≤ memory)
    (hl : wire.length = p.length)
    (hw : ∀ i, i < p.length → wire.getD i 0 = p.getD i 0 ^^^ K.getD (i % 4) 0) :
    wsReadMessage maxAlloc memory (frameBytes true rsv o form (some K) wire ++ rest)
      = ReadOutcome.returned o p none rest := by
  have h1 := wsReadMessage_frame maxAlloc memory true rsv o form (some K) wire rest hr ho
    (by rw [hl]; exact hf) (fun K1 hK1 => by cases hK1; exact hK) (by rw [hl]; exact ha)
    (by rw [hl]; exact hm)
  rw [h1]
  simp only [unmask_of_getD K wire p hl hw]
  rfl

theorem wsReadMessage_masked_frame_witness :
    (1 < 16 ∧ [1, 2, 3, 4].length = 4 ∧ LenForm.literal.fits [104, 105].length ∧
      [104, 105].length ≤ 2 ^ 48 ∧ [104, 105].length ≤ 2 ^ 30) ∧
      wsReadMessage (2 ^ 48) (2 ^ 30)
          (frameBytes true 0 1 LenForm.literal (some [1, 2, 3, 4]) [105, 107] ++ [9])
        = ReadOutcome.returned 1 [104, 105] none [9] :=
  ⟨by decide, wsReadMessage_masked_frame (2 ^ 48) (2 ^ 30) 1 0 LenForm.literal [1, 2, 3, 4]
    [104, 105] [105, 107] [9] (by decide) (by decide) (by decide) (by decide) (by decide)
    (by decide) (by decide) (by decide)⟩

/-- C3. Length-boundary policy of `wsSendMessage`: for every payload `p` of length `n` (an
`int`, so below `2^63`) the bytes written are: for `n ≤ 125` the 2-byte header with second
byte `n`, then `p`; for `126 ≤ n ≤ 65535` the bytes `0x81, 126`, two bytes whose big-endian
value is `n`, then `p`; for `n ≥ 65536` the bytes `0x81, 127`, eight bytes whose big-endian
value is `n`, then `p`. -/
theorem wsSendMessage_length_forms (p : List Nat) (h : p.length < 2 ^ 63) :
    (p.length ≤ 125 → wsSendMessage p = [0x81, p.length] ++ p) ∧
    (126 ≤ p.length → p.length ≤ 65535 →
      ∃ ext : List Nat, ext.length = 2 ∧ (∀ b ∈ ext, b < 256) ∧ beValue ext = p.length ∧
        wsSendMessage p = [0x81, 126] ++ ext ++ p) ∧
    (65536 ≤ p.length →
      ∃ ext : List Nat, ext.length = 8 ∧ (∀ b ∈ ext, b < 256) ∧ beValue ext = p.length ∧
        wsSendMessage p = [0x81, 127] ++ ext ++ p) := by
  refine ⟨fun h1 => ?_, fun h1 h2 => ?_, fun h1 => ?_⟩
  · rw [wsSendMessage, wsSendHeader_literal p.length h1]
  · obtain ⟨hb, hv⟩ := ext_bytes LenForm.ext16 p.length h2
    refine ⟨LenForm.ext16.ext p.length, rfl, hb, hv (by decide), ?_⟩
    rw [wsSendMessage, wsSendHeader_ext16 p.length h1 h2]
  · obtain ⟨hb, hv⟩ := ext_bytes LenForm.ext64 p.length h
    refine ⟨LenForm.ext64.ext p.length, rfl, hb, hv (by decide), ?_⟩
    rw [wsSendMessage, wsSendHeader_ext64 p.length h1]

theorem wsSendMessage_length_forms_witness :
    [7, 8, 9].length < 2 ^ 63 ∧ wsSendMessage [7, 8, 9] = [0x81, [7, 8, 9].length] ++ [7, 8, 9] :=
  ⟨by decide, (wsSendMessage_length_forms [7, 8, 9] (by decide)).1 (by decide)⟩

/-- C4. Every frame `wsSendMessage` writes is an unmasked, final text frame: for every payload
`p` the bytes written are `0x81` (fin set, reserved bits clear, opcode 1), a second byte `b1`
whose top bit (the mask bit) is 0, the length extension of the size that `b1` announces (2
bytes for 126, 8 for 127, none otherwise) and then, with no mask key in between, exactly `p`,
unchanged. -/
theorem wsSendMessage_unmasked_final_text (p : List Nat) :
    ∃ (b1 : Nat) (ext : List Nat),
      wsSendMessage p = [0x81, b1] ++ ext ++ p ∧ b1 &&& 0x80 = 0 ∧
      ext.length = (if b1 = 126 then 2 else if b1 = 127 then 8 else 0) ∧
      0x81 &&& 0x80 ≠ 0 ∧ 0x81 &&& 0x70 = 0 ∧ 0x81 &&& 0x0f = 1 := by
  by_cases h1 : p.length ≤ 125
  · refine ⟨p.length, [], ?_, ?_, ?_, by decide, by decide, by decide⟩
    · rw [wsSendMessage, wsSendHeader_literal p.length h1]
      rfl
    · have hb := (byte_bits p.length (by omega)).1
      by_contra hne
      have := hb.mp hne
      omega
    · rw [if_neg (by omega), if_neg (by omega)]
      rfl
  · by_cases h2 : p.length ≤ 65535
    · refine ⟨126, LenForm.ext16.ext p.length, ?_, by decide, rfl, by decide, by decide,
        by decide⟩
      rw [wsSendMessage, wsSendHeader_ext16 p.length (by omega) h2]
    · refine ⟨127, LenForm.ext64.ext p.length, ?_, by decide, rfl, by decide, by decide,
        by decide⟩
      rw [wsSendMessage, wsSendHeader_ext64 p.length (by omega)]

theorem unmaskFrom_getD (K : List Nat) (j : Nat) (p : List Nat) (i : Nat) (hi : i < p.length) :
    (unmaskFrom K j p).getD i 0 = p.getD i 0 ^^^ K.getD ((j + i) % 4) 0 := by
  induction p generalizing j i with
  | nil => simp at hi
  | cons b p ih =>
    cases i with
    | zero => simp [unmaskFrom]
    | succ i =>
      simp only [unmaskFrom, List.getD_cons_succ]
      rw [ih (j + 1) i (by simpa using hi)]
      congr 3
      omega

/-- C8. Masking is an involution: for every payload `p` and every key `K` (4 bytes or any
other), the unmasking step of `wsReadMessage`, which replaces `p[i]` by `p[i] XOR K[i mod 4]`
at every index `i`, applied twice with the same `K` gives back `p`, and it leaves the length
of `p` unchanged. -/
theorem unmask_involution (K p : List Nat) :
    unmask K (unmask K p) = p ∧ (unmask K p).length = p.length ∧
      ∀ i, i < p.length → (unmask K p).getD i 0 = p.getD i 0 ^^^ K.getD (i % 4) 0 := by
  refine ⟨unmaskFrom_twice K 0 p, unmaskFrom_length K 0 p, fun i hi => ?_⟩
  have h := unmaskFrom_getD K 0 p i hi
  rw [Nat.zero_add] at h
  exact h

/-! ## Streams that end inside a frame -/

theorem readFull_short (q : List Nat) (n : Nat) (h : q.length < n) :
    ∃ (buf : List Nat) (e : GoError),
      (e = GoError.EOF ∨ e = GoError.ErrUnexpectedEOF) ∧ readFull q n = (buf, some e, []) := by
  unfold readFull
  rw [if_neg (by omega)]
  by_cases h0 : q.length = 0
  · exact ⟨_, GoError.EOF, Or.inl rfl, by rw [if_pos h0]⟩
  · exact ⟨_, GoError.ErrUnexpectedEOF, Or.inr rfl, by rw [if_neg h0]⟩

theorem split_stream (q r a b : List Nat) (h : q ++ r = a ++ b) :
    q.length < a.length ∨ ∃ q1, q = a ++ q1 ∧ q1 ++ r = b := by
  rcases List.append_eq_append_iff.mp h with ⟨a1, ha, hr⟩ | ⟨c1, hq, hb⟩
  · cases a1 with
    | nil =>
      right
      refine ⟨[], ?_, ?_⟩
      · simpa using ha.symm
      · simpa using hr
    | cons x a1 =>
      left
      rw [ha]
      simp
  · right
    exact ⟨c1, hq, hb.symm⟩

theorem readPayloadLen_short (form : LenForm) (n : Nat) (q : List Nat)
    (hq : q.length < (form.ext n).length) :
    ∃ (v : Int) (e : GoError), (e = GoError.EOF ∨ e = GoError.ErrUnexpectedEOF) ∧
      readPayloadLen (form.field n) q = (v, some e, []) := by
  cases form with
  | literal => simp [LenForm.ext] at hq
  | ext16 =>
    obtain ⟨buf, e, he, hrd⟩ := readFull_short q 2 (by simpa [LenForm.ext] using hq)
    have h1 : readPayloadLen 126 q = (((126 : Nat) : Int), some e, []) := by simp [readPayloadLen, hrd]
    exact ⟨_, e, he, h1⟩
  | ext64 =>
    obtain ⟨buf, e, he, hrd⟩ := readFull_short q 8 (by simpa [LenForm.ext] using hq)
    have h1 : readPayloadLen 127 q = (((127 : Nat) : Int), some e, []) := by simp [readPayloadLen, hrd]
    exact ⟨_, e, he, h1⟩

theorem wsReadMessage_short (maxAlloc memory : Nat) (fin : Bool) (rsv opcode : Nat)
    (form : LenForm) (maskKey : Option (List Nat)) (wire q r : List Nat)
    (hf : form.fits wire.length) (hk : ∀ K, maskKey = some K → K.length = 4)
    (ha : wire.length ≤ maxAlloc) (hm : wire.length ≤ memory)
    (hq : q ++ r = frameBytes fin rsv opcode form maskKey wire) (hne : r ≠ []) :
    ∃ (messageType : Nat) (p : List Nat) (e : GoError),
      (e = GoError.EOF ∨ e = GoError.ErrUnexpectedEOF) ∧
      wsReadMessage maxAlloc memory q = ReadOutcome.returned messageType p (some e) [] := by
  have hfl := field_lt form wire.length hf
  have hb1 : (if maskKey.isSome then 128 else 0) + form.field wire.length < 256 := by
    cases maskKey <;> simp <;> omega
  obtain ⟨m80, -, m7f⟩ := byte_bits _ hb1
  have hfield : ((if maskKey.isSome then 128 else 0) + form.field wire.length) % 128
      = form.field wire.length := by
    cases maskKey
    · simp; omega
    · simp; omega
  have hmask : (128 ≤ (if maskKey.isSome then 128 else 0) + form.field wire.length)
      ↔ maskKey.isSome = true := by
    cases maskKey
    · simp; omega
    · simp
  have hrd : ∀ (b0 b1 : Nat) (tl : List Nat), readFull (b0 :: b1 :: tl) 2 = ([b0, b1], none, tl) :=
    fun b0 b1 tl => readFull_append [b0, b1] tl
  have hpanic : ¬ (((wire.length : Nat) : Int) < 0 ∨ ((maxAlloc : Nat) : Int) < wire.length) := by
    omega
  have hoom : ¬ (((memory : Nat) : Int) < wire.length) := by omega
  unfold frameBytes at hq
  simp only [List.cons_append, List.nil_append, List.append_assoc] at hq
  match q, hq with
  | [], _ => exact ⟨0, [], GoError.EOF, Or.inl rfl, rfl⟩
  | [x], _ =>
    refine ⟨0, [], GoError.ErrUnexpectedEOF, Or.inr rfl, ?_⟩
    simp [wsReadMessage, readFull]
  | x :: y :: q1, hq =>
    simp only [List.cons_append, List.cons.injEq] at hq
    obtain ⟨hx, hy, hq1⟩ := hq
    subst hx hy
    unfold wsReadMessage
    simp only [hrd, List.getD_cons_zero, List.getD_cons_succ, m80, m7f, hfield, hmask]
    rcases split_stream q1 r _ _ hq1 with hlt | ⟨q2, rfl, hq2⟩
    · obtain ⟨v, e, he, hpl⟩ := readPayloadLen_short form wire.length q1 hlt
      simp only [hpl]
      exact ⟨_, _, e, he, rfl⟩
    · rw [readPayloadLen_frame form wire.length q2 hf]
      cases maskKey with
      | none =>
        simp only [Option.getD_none, List.nil_append] at hq2
        have hlen : q2.length < wire.length := by
          have := congrArg List.length hq2
          have hr0 : 0 < r.length := List.length_pos.mpr hne
          simp only [List.length_append] at this
          omega
        obtain ⟨buf, e, he, hpay⟩ := readFull_short q2 wire.length hlen
        simp only [Option.isSome_none, Bool.false_eq_true, decide_False, if_false, hpay]
        simp only [Int.toNat_ofNat, hpay, if_neg hpanic, if_neg hoom]
        exact ⟨_, _, e, he, rfl⟩
      | some K =>
        have h4 := hk K rfl
        simp only [Option.getD_some] at hq2
        rcases split_stream q2 r _ _ hq2 with hlt | ⟨q3, rfl, hq3⟩
        · obtain ⟨buf, e, he, hkey⟩ := readFull_short q2 4 (by omega)
          simp only [Option.isSome_some, decide_True, if_true, hkey]
          exact ⟨_, _, e, he, rfl⟩
        · have h5 := readFull_append K q3
          rw [h4] at h5
          have hlen : q3.length < wire.length := by
            have := congrArg List.length hq3
            have hr0 : 0 < r.length := List.length_pos.mpr hne
            simp only [List.length_append] at this
            omega
          obtain ⟨buf, e, he, hpay⟩ := readFull_short q3 wire.length hlen
          simp only [Option.isSome_some, decide_True, if_true, h5]
          simp only [Int.toNat_ofNat, hpay, if_neg hpanic, if_neg hoom]
          exact ⟨_, _, e, he, rfl⟩

theorem handleWebSocket_of_error (maxAlloc memory : Nat) (conn : List Nat) (messageType : Nat)
    (p : List Nat) (e : GoError) (conn1 : List Nat)
    (h : wsReadMessage maxAlloc memory conn
      = ReadOutcome.returned messageType p (some e) conn1) :
    handleWebSocket maxAlloc memory conn = ([], SessionEnd.readError e) := by
  simp [handleWebSocket, handleWebSocketLoop, h]

/-! ## The session loop ends within its iteration budget -/

theorem readFull_ok_length (c : List Nat) (n : Nat) (b : List Nat) (c1 : List Nat)
    (h : readFull c n = (b, none, c1)) : c1.length + n = c.length := by
  unfold readFull at h
  split_ifs at h with h1 h2
  · simp only [Prod.mk.injEq, true_and] at h
    rw [← h.2, List.length_drop]
    omega
  · simp at h
  · simp at h

theorem readPayloadLen_ok_length (payloadLen : Nat) (c : List Nat) (v : Int) (c1 : List Nat)
    (h : readPayloadLen payloadLen c = (v, none, c1)) : c1.length ≤ c.length := by
  unfold readPayloadLen at h
  split_ifs at h with h1 h2
  · split at h
    · simp at h
    · rename_i hrd
      simp only [Prod.mk.injEq, true_and] at h
      have := readFull_ok_length _ _ _ _ hrd
      rw [← h.2]
      omega
  · split at h
    · simp at h
    · rename_i hrd
      simp only [Prod.mk.injEq, true_and] at h
      have := readFull_ok_length _ _ _ _ hrd
      rw [← h.2]
      omega
  · simp only [Prod.mk.injEq, true_and] at h
    rw [← h.2]

theorem wsReadMessage_ok_length (maxAlloc memory : Nat) (conn : List Nat) (messageType : Nat)
    (p : List Nat) (conn1 : List Nat)
    (h : wsReadMessage maxAlloc memory conn = ReadOutcome.returned messageType p none conn1) :
    conn1.length + 2 ≤ conn.length := by
  unfold wsReadMessage at h
  split at h
  · simp at h
  · rename_i hrd
    have l1 := readFull_ok_length _ _ _ _ hrd
    simp only [] at h
    split at h
    · simp at h
    · rename_i hpl
      have l2 := readPayloadLen_ok_length _ _ _ _ hpl
      split at h
      · simp at h
      · rename_i hmk
        have l3 : ∀ (c3 : List Nat) (k : List Nat) (c2 : List Nat) (m : Bool),
            (if m = true then readFull c2 4 else ([0, 0, 0, 0], none, c2)) = (k, none, c3) →
            c3.length ≤ c2.length := by
          intro c3 k c2 m hm
          cases m
          · simp only [Bool.false_eq_true, if_false, Prod.mk.injEq, true_and] at hm
            rw [← hm.2]
          · simp only [if_true] at hm
            have := readFull_ok_length _ _ _ _ hm
            omega
        have l4 := l3 _ _ _ _ hmk
        split at h
        · simp at h
        · split at h
          · simp at h
          · split at h
            · simp at h
            · rename_i hpay
              have l5 := readFull_ok_length _ _ _ _ hpay
              split_ifs at h <;> simp at h <;> (obtain ⟨-, -, rfl⟩ := h; omega)

theorem handleWebSocketLoop_fuel (maxAlloc memory : Nat) (fuel : Nat) (conn : List Nat)
    (h : conn.length < fuel) :
    (handleWebSocketLoop maxAlloc memory fuel conn).2 ≠ SessionEnd.outOfFuel := by
  induction fuel generalizing conn with
  | zero => omega
  | succ fuel ih =>
    simp only [handleWebSocketLoop]
    cases hrd : wsReadMessage maxAlloc memory conn with
    | makeslicePanic c => simp
    | outOfMemory c => simp
    | returned messageType msg err conn1 =>
      cases err with
      | some e => simp
      | none =>
        have hl := wsReadMessage_ok_length maxAlloc memory conn messageType msg conn1 hrd
        have h1 := ih conn1 (by omega)
        simp only []
        split_ifs
        · simp
        · exact h1
        · exact h1

theorem handleWebSocket_ends (maxAlloc memory : Nat) (conn : List Nat) :
    (handleWebSocket maxAlloc memory conn).2 ≠ SessionEnd.outOfFuel :=
  handleWebSocketLoop_fuel maxAlloc memory (conn.length + 1) conn (Nat.lt_succ_self _)

/-! ## Claims on rejected input -/

/-- C5 as stated fails: on the complete non-final frame `01 01 61` (fin 0, text, unmasked,
payload `61`) `wsReadMessage` does not return an empty `p` next to its error: the named result
`p` still holds the payload byte.  (The machine is one with the allocator limit `2^48` of
linux/amd64 and `2^30` bytes of memory.) -/
theorem wsReadMessage_nonFinal_hands_back_payload :
    frameBytes false 0 1 LenForm.literal none [0x61] = [0x01, 0x01, 0x61] ∧
    wsReadMessage (2 ^ 48) (2 ^ 30) [0x01, 0x01, 0x61]
      = ReadOutcome.returned 1 [0x61] (some GoError.nonFinalFrame) [] ∧
    ¬ ∃ (messageType : Nat) (err : GoError) (conn : List Nat),
        wsReadMessage (2 ^ 48) (2 ^ 30) [0x01, 0x01, 0x61]
          = ReadOutcome.returned messageType [] (some err) conn := by
  refine ⟨by decide, by decide, ?_⟩
  rintro ⟨messageType, err, conn, h⟩
  have h1 : wsReadMessage (2 ^ 48) (2 ^ 30) [0x01, 0x01, 0x61]
      = ReadOutcome.returned 1 [0x61] (some GoError.nonFinalFrame) [] := by decide
  rw [h1] at h
  cases h

/-- C5, amended. Fragmentation rejection: for every complete inbound frame whose fin bit is 0
(any opcode and reserved bits, masked or not, any payload that `make` can allocate on the
machine, in any length form), `wsReadMessage` returns the non-nil error "non-final frames are
not supported"; its other two results are the opcode and the whole (unmasked) payload, and
the loop of `handleWebSocket` ends on that error without starting a run, so no message
reaches a run. -/
theorem wsReadMessage_nonFinal_frame (maxAlloc memory : Nat) (rsv opcode : Nat)
    (form : LenForm) (maskKey : Option (List Nat)) (wire rest : List Nat) (hr : rsv < 8)
    (ho : opcode < 16) (hf : form.fits wire.length) (hk : ∀ K, maskKey = some K → K.length = 4)
    (ha : wire.length ≤ maxAlloc) (hm : wire.length ≤ memory) :
    wsReadMessage maxAlloc memory (frameBytes false rsv opcode form maskKey wire ++ rest) =
      ReadOutcome.returned opcode
        (match maskKey with
          | some K => unmask K wire
          | none => wire)
        (some GoError.nonFinalFrame) rest ∧
    handleWebSocket maxAlloc memory (frameBytes false rsv opcode form maskKey wire ++ rest)
      = ([], SessionEnd.readError GoError.nonFinalFrame) := by
  have h := wsReadMessage_frame maxAlloc memory false rsv opcode form maskKey wire rest hr ho
    hf hk ha hm
  simp only [Bool.false_eq_true, if_false] at h
  exact ⟨h, handleWebSocket_of_error _ _ _ _ _ _ _ h⟩

theorem wsReadMessage_nonFinal_frame_witness :
    (0 < 8 ∧ 2 < 16 ∧ LenForm.ext16.fits [7, 6].length ∧ [7, 6].length ≤ 2 ^ 48 ∧
      [7, 6].length ≤ 2 ^ 30) ∧
    wsReadMessage (2 ^ 48) (2 ^ 30)
        (frameBytes false 0 2 LenForm.ext16 (some [1, 2, 3, 4]) [7, 6] ++ [5]) =
      ReadOutcome.returned 2 [6, 4] (some GoError.nonFinalFrame) [5] ∧
    handleWebSocket (2 ^ 48) (2 ^ 30)
        (frameBytes false 0 2 LenForm.ext16 (some [1, 2, 3, 4]) [7, 6] ++ [5])
      = ([], SessionEnd.readError GoError.nonFinalFrame) :=
  ⟨by decide, wsReadMessage_nonFinal_frame (2 ^ 48) (2 ^ 30) 0 2 LenForm.ext16
    (some [1, 2, 3, 4]) [7, 6] [5] (by decide) (by decide) (by decide)
    (fun K hK => by cases hK; rfl) (by decide) (by decide)⟩

/-- The panic of C6 for every header of that form, on every machine: whatever the first byte,
masked or not, when the length field is 127 and the first of the eight length bytes has its
top bit set, `wsReadMessage` (once the header, the length and the mask key are read) panics in
`make`, and the loop of `handleWebSocket` ends by that panic. -/
theorem wsReadMessage_msb_length (maxAlloc memory : Nat) (b0 : Nat) (masked : Bool)
    (e0 e1 e2 e3 e4 e5 e6 e7 : Nat)
    (key rest : List Nat) (h0 : 128 ≤ e0) (l0 : e0 < 256) (l1 : e1 < 256) (l2 : e2 < 256)
    (l3 : e3 < 256) (l4 : e4 < 256) (l5 : e5 < 256) (l6 : e6 < 256) (l7 : e7 < 256)
    (hkey : key.length = if masked then 4 else 0) :
    wsReadMessage maxAlloc memory (b0 :: ((if masked then 128 else 0) + 127) :: e0 :: e1 :: e2
        :: e3 :: e4 :: e5 :: e6 :: e7 :: (key ++ rest)) = ReadOutcome.makeslicePanic rest ∧
    handleWebSocket maxAlloc memory (b0 :: ((if masked then 128 else 0) + 127) :: e0 :: e1 :: e2
        :: e3 :: e4 :: e5 :: e6 :: e7 :: (key ++ rest)) = ([], SessionEnd.panicked) := by
  have hb1 : (if masked then 128 else 0) + 127 < 256 := by
    cases masked <;> simp
  obtain ⟨m80, -, m7f⟩ := byte_bits _ hb1
  have hfield : ((if masked then 128 else 0) + 127) % 128 = 127 := by
    cases masked <;> simp
  have hmask : (128 ≤ (if masked then 128 else 0) + 127) ↔ masked = true := by
    cases masked <;> simp
  have hrd : ∀ (x y : Nat) (tl : List Nat), readFull (x :: y :: tl) 2 = ([x, y], none, tl) :=
    fun x y tl => readFull_append [x, y] tl
  have hext := readFull_append [e0, e1, e2, e3, e4, e5, e6, e7] (key ++ rest)
  simp only [List.length_cons, List.length_nil, List.cons_append, List.nil_append] at hext
  have hneg : int64 (e0 <<< 56 ||| e1 <<< 48 ||| e2 <<< 40 ||| e3 <<< 32 ||| e4 <<< 24
      ||| e5 <<< 16 ||| e6 <<< 8 ||| e7) < 0 := by
    rw [be64_lor e0 e1 e2 e3 e4 e5 e6 e7 l1 l2 l3 l4 l5 l6 l7]
    exact int64_of_ge _ (by omega) (by omega)
  have hread : wsReadMessage maxAlloc memory (b0 :: ((if masked then 128 else 0) + 127) :: e0
      :: e1 :: e2 :: e3 :: e4 :: e5 :: e6 :: e7 :: (key ++ rest))
      = ReadOutcome.makeslicePanic rest := by
    unfold wsReadMessage
    simp only [hrd, List.getD_cons_zero, List.getD_cons_succ, m80, m7f, hfield, hmask,
      readPayloadLen, hext]
    cases masked with
    | false =>
      have hk : key = [] := List.length_eq_zero.mp (by simpa using hkey)
      subst hk
      simp [hneg]
    | true =>
      have hk := readFull_append key rest
      rw [hkey] at hk
      simp only [if_true] at hk
      simp [hk, hneg]
  refine ⟨hread, ?_⟩
  simp [handleWebSocket, handleWebSocketLoop, hread]

/-- C6 fails on the code, on every machine (whatever the allocator limit and the memory): a
header in the 64-bit length form whose first length byte has its top bit set makes
`payloadLen` negative (here `-2^63`); `wsReadMessage` then panics in
`make([]byte, payloadLen)` instead of returning an error, and the panic, not an error return,
is what ends the loop of `handleWebSocket`. -/
theorem wsReadMessage_negative_length_panics (maxAlloc memory : Nat) :
    readPayloadLen 127 [0x80, 0, 0, 0, 0, 0, 0, 0] = (-(2 : Int) ^ 63, none, []) ∧
    wsReadMessage maxAlloc memory [0x81, 0x7f, 0x80, 0, 0, 0, 0, 0, 0, 0]
      = ReadOutcome.makeslicePanic [] ∧
    wsReadMessage maxAlloc memory
        [0x81, 0xff, 0xff, 0xff, 0xff, 0xff, 0xff, 0xff, 0xff, 0xff, 1, 2, 3, 4, 5]
      = ReadOutcome.makeslicePanic [5] ∧
    handleWebSocket maxAlloc memory [0x81, 0x7f, 0x80, 0, 0, 0, 0, 0, 0, 0]
      = ([], SessionEnd.panicked) := by
  have a := wsReadMessage_msb_length maxAlloc memory 0x81 false 0x80 0 0 0 0 0 0 0 [] []
    (by decide) (by decide) (by decide) (by decide) (by decide) (by decide) (by decide)
    (by decide) (by decide) rfl
  have b := wsReadMessage_msb_length maxAlloc memory 0x81 true 0xff 0xff 0xff 0xff 0xff 0xff
    0xff 0xff [1, 2, 3, 4] [5]
    (by decide) (by decide) (by decide) (by decide) (by decide) (by decide) (by decide)
    (by decide) (by decide) rfl
  exact ⟨by decide, a.1, b.1, a.2⟩

/-- Short reads within what `make` can give: for every complete frame (any first byte, masked
or not, any length form) whose payload length is within the allocator limit and the memory
of the machine, and every strict initial part `q` of its bytes (`r`, what is cut off, is not
empty), `wsReadMessage` on a stream that ends after `q` returns a non-nil I/O error, `io.EOF`
or `io.ErrUnexpectedEOF`, and never a successful message, and the loop of `handleWebSocket`
then ends on that error without starting a run. -/
theorem wsReadMessage_short_read_within_limit (maxAlloc memory : Nat) (fin : Bool)
    (rsv opcode : Nat) (form : LenForm)
    (maskKey : Option (List Nat)) (wire q r : List Nat)
    (hf : form.fits wire.length) (hk : ∀ K, maskKey = some K → K.length = 4)
    (ha : wire.length ≤ maxAlloc) (hm : wire.length ≤ memory)
    (hq : q ++ r = frameBytes fin rsv opcode form maskKey wire) (hne : r ≠ []) :
    ∃ (messageType : Nat) (p : List Nat) (e : GoError),
      (e = GoError.EOF ∨ e = GoError.ErrUnexpectedEOF) ∧
      wsReadMessage maxAlloc memory q = ReadOutcome.returned messageType p (some e) [] ∧
      handleWebSocket maxAlloc memory q = ([], SessionEnd.readError e) := by
  obtain ⟨messageType, p, e, he, h⟩ :=
    wsReadMessage_short maxAlloc memory fin rsv opcode form maskKey wire q r hf hk ha hm hq hne
  exact ⟨messageType, p, e, he, h, handleWebSocket_of_error _ _ _ _ _ _ _ h⟩

/-- A header that announces more than `make` can give: once the header, the length and the
mask key of a frame that announces `n` payload bytes are read, `wsReadMessage` panics when
`n` is above the allocator limit, and the process dies when `n` is within that limit but
above the memory of the machine; nothing of what follows the header is read in either
case. -/
theorem wsReadMessage_over_limit (maxAlloc memory : Nat) (fin : Bool) (rsv opcode : Nat)
    (form : LenForm) (maskKey : Option (List Nat)) (n : Nat) (rest : List Nat)
    (hf : form.fits n) (hk : ∀ K, maskKey = some K → K.length = 4) :
    (maxAlloc < n →
      wsReadMessage maxAlloc memory
        ([(if fin then 128 else 0) + 16 * rsv + opcode,
          (if maskKey.isSome then 128 else 0) + form.field n]
          ++ form.ext n ++ maskKey.getD [] ++ rest) = ReadOutcome.makeslicePanic rest) ∧
    (n ≤ maxAlloc → memory < n →
      wsReadMessage maxAlloc memory
        ([(if fin then 128 else 0) + 16 * rsv + opcode,
          (if maskKey.isSome then 128 else 0) + form.field n]
          ++ form.ext n ++ maskKey.getD [] ++ rest) = ReadOutcome.outOfMemory rest) := by
  have hfl := field_lt form n hf
  have hb1 : (if maskKey.isSome then 128 else 0) + form.field n < 256 := by
    cases maskKey <;> simp <;> omega
  obtain ⟨m80, -, m7f⟩ := byte_bits _ hb1
  have hfield : ((if maskKey.isSome then 128 else 0) + form.field n) % 128 = form.field n := by
    cases maskKey
    · simp; omega
    · simp; omega
  have hmask : (128 ≤ (if maskKey.isSome then 128 else 0) + form.field n)
      ↔ maskKey.isSome = true := by
    cases maskKey
    · simp; omega
    · simp
  have hrd : ∀ (b0 b1 : Nat) (tl : List Nat), readFull (b0 :: b1 :: tl) 2 = ([b0, b1], none, tl) :=
    fun b0 b1 tl => readFull_append [b0, b1] tl
  constructor
  · intro hlt
    have hpanic : ((n : Nat) : Int) < 0 ∨ ((maxAlloc : Nat) : Int) < n := Or.inr (by omega)
    unfold wsReadMessage
    simp only [List.cons_append, List.nil_append, List.append_assoc, hrd,
      List.getD_cons_zero, List.getD_cons_succ, m80, m7f, hfield, hmask,
      readPayloadLen_frame form n _ hf, decide_eq_true_eq, if_pos hpanic]
    cases maskKey with
    | none => simp
    | some K =>
      have h5 := readFull_append K rest
      rw [hk K rfl] at h5
      simp [h5]
  · intro hle hlt
    have hpanic : ¬ (((n : Nat) : Int) < 0 ∨ ((maxAlloc : Nat) : Int) < n) := by omega
    have hoom : ((memory : Nat) : Int) < n := by omega
    unfold wsReadMessage
    simp only [List.cons_append, List.nil_append, List.append_assoc, hrd,
      List.getD_cons_zero, List.getD_cons_succ, m80, m7f, hfield, hmask,
      readPayloadLen_frame form n _ hf, decide_eq_true_eq, if_neg hpanic, if_pos hoom]
    cases maskKey with
    | none => simp
    | some K =>
      have h5 := readFull_append K rest
      rw [hk K rfl] at h5
      simp [h5]

theorem handleWebSocket_of_panic (maxAlloc memory : Nat) (conn conn1 : List Nat)
    (h : wsReadMessage maxAlloc memory conn = ReadOutcome.makeslicePanic conn1) :
    handleWebSocket maxAlloc memory conn = ([], SessionEnd.panicked) := by
  simp [handleWebSocket, handleWebSocketLoop, h]

theorem handleWebSocket_of_death (maxAlloc memory : Nat) (conn conn1 : List Nat)
    (h : wsReadMessage maxAlloc memory conn = ReadOutcome.outOfMemory conn1) :
    handleWebSocket maxAlloc memory conn = ([], SessionEnd.died) := by
  simp [handleWebSocket, handleWebSocketLoop, h]

/-- C7 fails on the code, by the defect of C6 (`make([]byte, payloadLen)` at line 244 runs
before the payload is read, with no check of the length the header announces).  A final
unmasked text frame with `2^48 + 1` payload bytes starts with the ten bytes
`81 7f 00 01 00 00 00 00 00 01`; on a stream that ends after these ten bytes, or after them
and any part `q` of the payload, `wsReadMessage` on a machine with the allocator limit `2^48`
of linux/amd64 does not return an I/O error: it panics in `make` (`makeslice: len out of
range`) with `q` unread, and the panic ends the loop of `handleWebSocket`.  Within the
allocator limit the same happens by memory: a frame with `2^40` payload bytes starts with
`81 7f 00 00 01 00 00 00 00 00`, and on a machine that has `2^36` bytes to give the runtime
ends the whole process (`fatal error: runtime: out of memory`) where the claim wants an error
return. -/
theorem wsReadMessage_short_read_panics :
    (∀ wire : List Nat, wire.length = 2 ^ 48 + 1 →
      frameBytes true 0 1 LenForm.ext64 none wire
        = [0x81, 0x7f, 0, 1, 0, 0, 0, 0, 0, 1] ++ wire) ∧
    (∀ (memory : Nat) (q : List Nat),
      wsReadMessage (2 ^ 48) memory ([0x81, 0x7f, 0, 1, 0, 0, 0, 0, 0, 1] ++ q)
        = ReadOutcome.makeslicePanic q ∧
      handleWebSocket (2 ^ 48) memory ([0x81, 0x7f, 0, 1, 0, 0, 0, 0, 0, 1] ++ q)
        = ([], SessionEnd.panicked)) ∧
    (∀ wire : List Nat, wire.length = 2 ^ 40 →
      frameBytes true 0 1 LenForm.ext64 none wire
        = [0x81, 0x7f, 0, 0, 1, 0, 0, 0, 0, 0] ++ wire) ∧
    (∀ q : List Nat,
      wsReadMessage (2 ^ 48) (2 ^ 36) ([0x81, 0x7f, 0, 0, 1, 0, 0, 0, 0, 0] ++ q)
        = ReadOutcome.outOfMemory q ∧
      handleWebSocket (2 ^ 48) (2 ^ 36) ([0x81, 0x7f, 0, 0, 1, 0, 0, 0, 0, 0] ++ q)
        = ([], SessionEnd.died)) := by
  have hp : ∀ (memory : Nat) (q : List Nat),
      wsReadMessage (2 ^ 48) memory ([0x81, 0x7f, 0, 1, 0, 0, 0, 0, 0, 1] ++ q)
        = ReadOutcome.makeslicePanic q := by
    intro memory q
    have h := (wsReadMessage_over_limit (2 ^ 48) memory true 0 1 LenForm.ext64 none
      (2 ^ 48 + 1) q (by norm_num [LenForm.fits]) (fun K hK => by cases hK)).1 (by norm_num)
    simpa [LenForm.field, LenForm.ext] using h
  have hd : ∀ q : List Nat,
      wsReadMessage (2 ^ 48) (2 ^ 36) ([0x81, 0x7f, 0, 0, 1, 0, 0, 0, 0, 0] ++ q)
        = ReadOutcome.outOfMemory q := by
    intro q
    have h := (wsReadMessage_over_limit (2 ^ 48) (2 ^ 36) true 0 1 LenForm.ext64 none
      (2 ^ 40) q (by norm_num [LenForm.fits]) (fun K hK => by cases hK)).2 (by norm_num)
      (by norm_num)
    simpa [LenForm.field, LenForm.ext] using h
  refine ⟨?_, fun memory q => ⟨hp memory q, handleWebSocket_of_panic _ _ _ _ (hp memory q)⟩,
    ?_, fun q => ⟨hd q, handleWebSocket_of_death _ _ _ _ (hd q)⟩⟩
  · intro wire h
    simp [frameBytes, h, LenForm.field, LenForm.ext]
  · intro wire h
    simp [frameBytes, h, LenForm.field, LenForm.ext]

/-! ## UTF-8: decoding what `AppendRune` wrote -/

set_option maxRecDepth 100000 in
theorem mask_bits : ∀ b < 256,
    b &&& 0x3F = b % 64 ∧ b &&& 0x1F = b % 32 ∧ b &&& 0x0F = b % 16 ∧ b &&& 0x07 = b % 8 := by
  decide

theorem lead_bits : (∀ x < 64, 0x80 ||| x = 0x80 + x) ∧ (∀ x < 32, 0xC0 ||| x = 0xC0 + x) ∧
    (∀ x < 16, 0xE0 ||| x = 0xE0 + x) ∧ (∀ x < 8, 0xF0 ||| x = 0xF0 + x) := by
  decide

theorem AppendRune_1 (r : Nat) (h : r ≤ 0x7F) : AppendRune r = [r] := by
  unfold AppendRune byte
  rw [if_pos h, Nat.mod_eq_of_lt (by omega)]

theorem AppendRune_2 (r : Nat) (h1 : 0x80 ≤ r) (h2 : r ≤ 0x7FF) :
    AppendRune r = [0xC0 + r / 64, 0x80 + r % 64] := by
  unfold AppendRune byte
  rw [if_neg (by omega), if_pos h2, Nat.shiftRight_eq_div_pow,
    (mask_bits (r % 256) (by omega)).1, lead_bits.1 _ (by omega),
    lead_bits.2.1 _ (by omega)]
  simp only [List.cons.injEq, and_true]
  omega

theorem AppendRune_3 (r : Nat) (h1 : 0x800 ≤ r) (h2 : r ≤ 0xFFFF)
    (h3 : r < 0xD800 ∨ 0xDFFF < r) :
    AppendRune r = [0xE0 + r / 4096, 0x80 + r / 64 % 64, 0x80 + r % 64] := by
  unfold AppendRune byte
  rw [if_neg (by omega), if_neg (by omega), if_neg (by omega), if_pos h2]
  simp only [Nat.shiftRight_eq_div_pow]
  rw [(mask_bits (r % 256) (by omega)).1, (mask_bits (r / 2 ^ 6 % 256) (by omega)).1,
    lead_bits.1 _ (by omega), lead_bits.1 _ (by omega), lead_bits.2.2.1 _ (by omega)]
  simp only [List.cons.injEq, and_true]
  omega

theorem AppendRune_4 (r : Nat) (h1 : 0x10000 ≤ r) (h2 : r ≤ 0x10FFFF) :
    AppendRune r = [0xF0 + r / 262144, 0x80 + r / 4096 % 64, 0x80 + r / 64 % 64, 0x80 + r % 64] := by
  unfold AppendRune byte
  rw [if_neg (by omega), if_neg (by omega), if_neg (by omega), if_neg (by omega)]
  simp only [Nat.shiftRight_eq_div_pow]
  rw [(mask_bits (r % 256) (by omega)).1, (mask_bits (r / 2 ^ 6 % 256) (by omega)).1,
    (mask_bits (r / 2 ^ 12 % 256) (by omega)).1,
    lead_bits.1 _ (by omega), lead_bits.1 _ (by omega), lead_bits.1 _ (by omega),
    lead_bits.2.2.2 _ (by omega)]
  simp only [List.cons.injEq, and_true]
  omega

theorem first_2 (p0 : Nat) (h1 : 0xC2 ≤ p0) (h2 : p0 < 0xE0) : first p0 = 0x02 := by
  unfold first
  rw [if_neg (by omega), if_neg (by omega), if_pos h2]

theorem first_3 (p0 : Nat) (h1 : 0xE0 ≤ p0) (h2 : p0 ≤ 0xEF) :
    first p0 = (if p0 = 0xE0 then 0x13 else if p0 = 0xED then 0x23 else 0x03) := by
  unfold first
  rw [if_neg (by omega), if_neg (by omega), if_neg (by omega)]
  split_ifs <;> first | rfl | omega

theorem first_4 (p0 : Nat) (h1 : 0xF0 ≤ p0) (h2 : p0 ≤ 0xF4) :
    first p0 = (if p0 = 0xF0 then 0x34 else if p0 = 0xF4 then 0x44 else 0x04) := by
  unfold first
  rw [if_neg (by omega), if_neg (by omega), if_neg (by omega), if_neg (by omega),
    if_neg (by omega), if_neg (by omega), if_neg (by omega)]
  split_ifs <;> first | rfl | omega

theorem DecodeRune_1 (p0 : Nat) (rest : List Nat) (h : p0 < 0x80) :
    DecodeRune (p0 :: rest) = (p0, 1) := by
  have hf : first p0 = 0xF0 := by
    unfold first
    rw [if_pos h]
  simp [DecodeRune, hf]

theorem DecodeRune_2 (p0 b1 : Nat) (rest : List Nat) (h1 : 0xC2 ≤ p0) (h2 : p0 < 0xE0)
    (hb1 : 0x80 ≤ b1) (hb2 : b1 ≤ 0xBF) :
    DecodeRune (p0 :: b1 :: rest) = (p0 % 32 * 64 + b1 % 64, 2) := by
  have e1 : (p0 &&& 0x1F) <<< 6 ||| (b1 &&& 0x3F) = p0 % 32 * 64 + b1 % 64 := by
    rw [(mask_bits p0 (by omega)).2.1, (mask_bits b1 (by omega)).1, shl_lor _ _ 6 (by omega)]
    omega
  have e2 : (0x02 &&& 7 : Nat) = 2 := by decide
  have e3 : (0x02 >>> 4 : Nat) = 0 := by decide
  simp only [DecodeRune, first_2 p0 h1 h2, e1, e2, e3, acceptRanges, List.getD_cons_zero,
    List.getD_cons_succ, List.length_cons]
  rw [if_neg (by omega), if_neg (by omega), if_neg (by omega), if_pos (by omega)]

theorem DecodeRune_3 (p0 b1 b2 : Nat) (rest : List Nat) (h1 : 0xE0 ≤ p0) (h2 : p0 ≤ 0xEF)
    (hb1 : 0x80 ≤ b1) (hb2 : b1 ≤ 0xBF) (hE0 : p0 = 0xE0 → 0xA0 ≤ b1)
    (hED : p0 = 0xED → b1 ≤ 0x9F) (hc1 : 0x80 ≤ b2) (hc2 : b2 ≤ 0xBF) :
    DecodeRune (p0 :: b1 :: b2 :: rest) = (p0 % 16 * 4096 + b1 % 64 * 64 + b2 % 64, 3) := by
  have e1 : (p0 &&& 0x0F) <<< 12 ||| (b1 &&& 0x3F) <<< 6 ||| (b2 &&& 0x3F)
      = p0 % 16 * 4096 + b1 % 64 * 64 + b2 % 64 := by
    rw [(mask_bits p0 (by omega)).2.2.1, (mask_bits b1 (by omega)).1,
      (mask_bits b2 (by omega)).1]
    simp only [Nat.shiftLeft_eq]
    rw [lor_add (p0 % 16 * 2 ^ 12) (b1 % 64 * 2 ^ 6) 12 (by omega) (by omega),
      lor_add (p0 % 16 * 2 ^ 12 + b1 % 64 * 2 ^ 6) (b2 % 64) 6 (by omega) (by omega)]
  have a1 : (0x13 &&& 7 : Nat) = 3 ∧ (0x13 >>> 4 : Nat) = 1 := by decide
  have a2 : (0x23 &&& 7 : Nat) = 3 ∧ (0x23 >>> 4 : Nat) = 2 := by decide
  have a3 : (0x03 &&& 7 : Nat) = 3 ∧ (0x03 >>> 4 : Nat) = 0 := by decide
  have hx := first_3 p0 h1 h2
  by_cases c1 : p0 = 0xE0
  · have hb := hE0 c1
    rw [if_pos c1] at hx
    simp only [DecodeRune, hx, e1, a1, acceptRanges, List.getD_cons_zero,
      List.getD_cons_succ, List.length_cons]
    split_ifs <;> first | rfl | omega
  · by_cases c2 : p0 = 0xED
    · have hb := hED c2
      rw [if_neg c1, if_pos c2] at hx
      simp only [DecodeRune, hx, e1, a2, acceptRanges, List.getD_cons_zero,
        List.getD_cons_succ, List.length_cons]
      split_ifs <;> first | rfl | omega
    · rw [if_neg c1, if_neg c2] at hx
      simp only [DecodeRune, hx, e1, a3, acceptRanges, List.getD_cons_zero,
        List.getD_cons_succ, List.length_cons]
      split_ifs <;> first | rfl | omega

theorem DecodeRune_4 (p0 b1 b2 b3 : Nat) (rest : List Nat) (h1 : 0xF0 ≤ p0) (h2 : p0 ≤ 0xF4)
    (hb1 : 0x80 ≤ b1) (hb2 : b1 ≤ 0xBF) (hF0 : p0 = 0xF0 → 0x90 ≤ b1)
    (hF4 : p0 = 0xF4 → b1 ≤ 0x8F) (hc1 : 0x80 ≤ b2) (hc2 : b2 ≤ 0xBF)
    (hd1 : 0x80 ≤ b3) (hd2 : b3 ≤ 0xBF) :
    DecodeRune (p0 :: b1 :: b2 :: b3 :: rest)
      = (p0 % 8 * 262144 + b1 % 64 * 4096 + b2 % 64 * 64 + b3 % 64, 4) := by
  have e1 : (p0 &&& 0x07) <<< 18 ||| (b1 &&& 0x3F) <<< 12 ||| (b2 &&& 0x3F) <<< 6
      ||| (b3 &&& 0x3F) = p0 % 8 * 262144 + b1 % 64 * 4096 + b2 % 64 * 64 + b3 % 64 := by
    rw [(mask_bits p0 (by omega)).2.2.2, (mask_bits b1 (by omega)).1,
      (mask_bits b2 (by omega)).1, (mask_bits b3 (by omega)).1]
    simp only [Nat.shiftLeft_eq]
    rw [lor_add (p0 % 8 * 2 ^ 18) (b1 % 64 * 2 ^ 12) 18 (by omega) (by omega),
      lor_add (p0 % 8 * 2 ^ 18 + b1 % 64 * 2 ^ 12) (b2 % 64 * 2 ^ 6) 12 (by omega) (by omega),
      lor_add (p0 % 8 * 2 ^ 18 + b1 % 64 * 2 ^ 12 + b2 % 64 * 2 ^ 6) (b3 % 64) 6 (by omega)
        (by omega)]
  have a1 : (0x34 &&& 7 : Nat) = 4 ∧ (0x34 >>> 4 : Nat) = 3 := by decide
  have a2 : (0x44 &&& 7 : Nat) = 4 ∧ (0x44 >>> 4 : Nat) = 4 := by decide
  have a3 : (0x04 &&& 7 : Nat) = 4 ∧ (0x04 >>> 4 : Nat) = 0 := by decide
  have hx := first_4 p0 h1 h2
  by_cases c1 : p0 = 0xF0
  · have hb := hF0 c1
    rw [if_pos c1] at hx
    simp only [DecodeRune, hx, e1, a1, acceptRanges, List.getD_cons_zero,
      List.getD_cons_succ, List.length_cons]
    split_ifs <;> first | rfl | omega
  · by_cases c2 : p0 = 0xF4
    · have hb := hF4 c2
      rw [if_neg c1, if_pos c2] at hx
      simp only [DecodeRune, hx, e1, a2, acceptRanges, List.getD_cons_zero,
        List.getD_cons_succ, List.length_cons]
      split_ifs <;> first | rfl | omega
    · rw [if_neg c1, if_neg c2] at hx
      simp only [DecodeRune, hx, e1, a3, acceptRanges, List.getD_cons_zero,
        List.getD_cons_succ, List.length_cons]
      split_ifs <;> first | rfl | omega

theorem DecodeRune_AppendRune (r : Nat) (rest : List Nat) (hv : ValidRune r = true) :
    DecodeRune (AppendRune r ++ rest) = (r, (AppendRune r).length) := by
  have hv1 : r < 0xD800 ∨ (0xDFFF < r ∧ r ≤ 0x10FFFF) := by
    simpa [ValidRune] using hv
  by_cases h1 : r ≤ 0x7F
  · rw [AppendRune_1 r h1]
    exact DecodeRune_1 r rest (by omega)
  · by_cases h2 : r ≤ 0x7FF
    · rw [AppendRune_2 r (by omega) h2]
      simp only [List.cons_append, List.nil_append, List.length_cons, List.length_nil]
      rw [DecodeRune_2 _ _ rest (by omega) (by omega) (by omega) (by omega)]
      simp only [Prod.mk.injEq, and_true]
      omega
    · by_cases h3 : r ≤ 0xFFFF
      · rw [AppendRune_3 r (by omega) h3 (by omega)]
        simp only [List.cons_append, List.nil_append, List.length_cons, List.length_nil]
        rw [DecodeRune_3 _ _ _ rest (by omega) (by omega) (by omega) (by omega) (by omega)
          (by omega) (by omega) (by omega)]
        simp only [Prod.mk.injEq, and_true]
        omega
      · rw [AppendRune_4 r (by omega) (by omega)]
        simp only [List.cons_append, List.nil_append, List.length_cons, List.length_nil]
        rw [DecodeRune_4 _ _ _ _ rest (by omega) (by omega) (by omega) (by omega) (by omega)
          (by omega) (by omega) (by omega) (by omega) (by omega)]
        simp only [Prod.mk.injEq, and_true]
        omega

/-! ## The draining loop without fuel -/

theorem DecodeRune_size_pos (p0 : Nat) (rest : List Nat) : 1 ≤ (DecodeRune (p0 :: rest)).2 := by
  simp only [DecodeRune]
  split_ifs <;> simp

theorem ReadRune_length (reader : List Nat) (r : Nat) (reader1 : List Nat)
    (h : ReadRune reader = some (r, reader1)) : reader1.length < reader.length := by
  cases reader with
  | nil => simp [ReadRune] at h
  | cons b rest =>
    simp only [ReadRune] at h
    split_ifs at h with hb
    · have hs := DecodeRune_size_pos b rest
      simp only [Option.some.injEq, Prod.mk.injEq] at h
      rw [← h.2, List.length_drop]
      simp only [List.length_cons]
      omega
    · simp only [Option.some.injEq, Prod.mk.injEq] at h
      rw [← h.2]
      simp

theorem drainLoop_fuel (f1 f2 : Nat) (reader buffer : List Nat) (h1 : reader.length ≤ f1)
    (h2 : reader.length ≤ f2) : drainLoop f1 reader buffer = drainLoop f2 reader buffer := by
  induction f1 generalizing f2 reader buffer with
  | zero =>
    have hr : reader = [] := List.length_eq_zero.mp (by omega)
    subst hr
    cases f2 <;> simp [drainLoop, ReadRune]
  | succ f1 ih =>
    cases f2 with
    | zero =>
      have hr : reader = [] := List.length_eq_zero.mp (by omega)
      subst hr
      simp [drainLoop, ReadRune]
    | succ f2 =>
      simp only [drainLoop]
      cases hrd : ReadRune reader with
      | none => rfl
      | some v =>
        obtain ⟨r, reader1⟩ := v
        have hl := ReadRune_length reader r reader1 hrd
        simp only []
        rw [ih f2 reader1 [] (by omega) (by omega),
          ih f2 reader1 (buffer ++ AppendRune r) (by omega) (by omega)]

theorem drain_eq (reader buffer : List Nat) :
    drainLoop reader.length reader buffer =
      match ReadRune reader with
      | none => flush buffer
      | some (r, reader1) =>
        if r = 0x0c then
          flush buffer ++ [Event.Clear] ++ drainLoop reader1.length reader1 []
        else if r = 0x0a ∨ (buffer ++ AppendRune r).length ≥ 1024 then
          Event.Output (buffer ++ AppendRune r) :: drainLoop reader1.length reader1 []
        else drainLoop reader1.length reader1 (buffer ++ AppendRune r) := by
  cases reader with
  | nil => simp [drainLoop, ReadRune]
  | cons b rest =>
    simp only [List.length_cons, drainLoop]
    cases hrd : ReadRune (b :: rest) with
    | none => rfl
    | some v =>
      obtain ⟨r, reader1⟩ := v
      have hl := ReadRune_length (b :: rest) r reader1 hrd
      simp only [List.length_cons] at hl
      simp only []
      rw [drainLoop_fuel rest.length reader1.length reader1 [] (by omega) (by omega),
        drainLoop_fuel rest.length reader1.length reader1 (buffer ++ AppendRune r) (by omega)
          (by omega)]

theorem AppendRune_head (r : Nat) (hv : ValidRune r = true) (h : 0x7F < r) :
    ∃ b tl, AppendRune r = b :: tl ∧ 0x80 ≤ b := by
  have hv1 : r < 0xD800 ∨ (0xDFFF < r ∧ r ≤ 0x10FFFF) := by
    simpa [ValidRune] using hv
  by_cases h2 : r ≤ 0x7FF
  · exact ⟨_, _, AppendRune_2 r (by omega) h2, by omega⟩
  · by_cases h3 : r ≤ 0xFFFF
    · exact ⟨_, _, AppendRune_3 r (by omega) h3 (by omega), by omega⟩
    · exact ⟨_, _, AppendRune_4 r (by omega) (by omega), by omega⟩

theorem ReadRune_AppendRune (r : Nat) (rest : List Nat) (hv : ValidRune r = true) :
    ReadRune (AppendRune r ++ rest) = some (r, rest) := by
  by_cases h1 : r ≤ 0x7F
  · rw [AppendRune_1 r h1]
    simp only [List.cons_append, List.nil_append, ReadRune]
    rw [if_neg (by omega)]
  · have hd := DecodeRune_AppendRune r rest hv
    obtain ⟨b, tl, hb, hge⟩ := AppendRune_head r hv (by omega)
    have hrd : ReadRune (b :: (tl ++ rest)) = some ((DecodeRune (b :: (tl ++ rest))).1,
        (b :: (tl ++ rest)).drop (DecodeRune (b :: (tl ++ rest))).2) := by
      simp only [ReadRune]
      rw [if_pos hge]
    rw [hb] at hd ⊢
    rw [List.cons_append] at hd ⊢
    rw [hrd, hd]
    simp

theorem mem_encodeRunes (rs : List Nat) (r b : Nat) (hr : r ∈ rs) (hb : b ∈ AppendRune r) :
    b ∈ encodeRunes rs := by
  induction rs with
  | nil => simp at hr
  | cons a rs ih =>
    simp only [encodeRunes, List.mem_append]
    rcases List.mem_cons.mp hr with h | h
    · left
      rw [← h]
      exact hb
    · right
      exact ih h

theorem drainLoop_text (rs : List Nat) (t buffer : List Nat)
    (hv : ∀ r ∈ rs, ValidRune r = true) (hff : ∀ r ∈ rs, r ≠ 0x0c) (hnl : ∀ r ∈ rs, r ≠ 0x0a)
    (hlen : buffer.length + (encodeRunes rs).length < 1024) :
    drainLoop (encodeRunes rs ++ 0x0c :: t).length (encodeRunes rs ++ 0x0c :: t) buffer
      = flush (buffer ++ encodeRunes rs) ++ [Event.Clear] ++ drainLoop t.length t [] := by
  induction rs generalizing buffer with
  | nil =>
    rw [drain_eq]
    simp [encodeRunes, ReadRune]
  | cons r rs ih =>
    have hr : ValidRune r = true := hv r (List.mem_cons_self r rs)
    have h1 : r ≠ 0x0c := hff r (List.mem_cons_self r rs)
    have h2 : r ≠ 0x0a := hnl r (List.mem_cons_self r rs)
    simp only [encodeRunes, List.length_append] at hlen
    have h3 : ¬ (r = 0x0a ∨ (buffer ++ AppendRune r).length ≥ 1024) := by
      rw [List.length_append]
      omega
    simp only [encodeRunes, List.append_assoc]
    rw [drain_eq, ReadRune_AppendRune r _ hr]
    simp only []
    rw [if_neg h1, if_neg h3,
      ih (buffer ++ AppendRune r) (fun x hx => hv x (List.mem_cons_of_mem r hx))
        (fun x hx => hff x (List.mem_cons_of_mem r hx))
        (fun x hx => hnl x (List.mem_cons_of_mem r hx))
        (by rw [List.length_append]; omega)]
    simp only [List.append_assoc]

/-! ## Claims on the output emitter and on tokenization -/

/-- C9 fails on the code: the `data` literal that `sendOutput` and `sendError` print with
`%q` is a Go string literal, not a JSON one.  Whatever the Unicode tables say, for the text
ESC the message is `{"type":"output","data":"\x1b"}`, and the literals for ESC (`"\x1b"`),
BEL (`"\a"`), NUL (`"\x00"`) and the invalid UTF-8 byte `ff` (`"\xff"`) are not JSON
string literals.  The message of `sendClearScreen` is exactly `{"type":"clear"}`. -/
theorem sendOutput_control_characters_not_JSON (table : Nat → Bool) :
    sendOutputMsg table [0x1b] = ascii "\x7b\"type\":\"output\",\"data\":\"\\x1b\"\x7d" ∧
    sendErrorMsg table [0x1b] = ascii "\x7b\"type\":\"error\",\"data\":\"\\x1b\"\x7d" ∧
    Quote table [0x1b] = ascii "\"\\x1b\"" ∧ isJSONString (Quote table [0x1b]) = false ∧
    Quote table [0x07] = ascii "\"\\a\"" ∧ isJSONString (Quote table [0x07]) = false ∧
    Quote table [0x00] = ascii "\"\\x00\"" ∧ isJSONString (Quote table [0x00]) = false ∧
    Quote table [0xff] = ascii "\"\\xff\"" ∧ isJSONString (Quote table [0xff]) = false ∧
    sendClearScreenMsg = ascii "\x7b\"type\":\"clear\"\x7d" :=
  ⟨rfl, rfl, rfl, rfl, rfl, rfl, rfl, rfl, rfl, rfl, rfl⟩

/-- C10 as stated fails for a text that is not valid UTF-8: the text `ff` has no form feed and
no newline and is one byte long, yet on `ff 0c` the loop emits `Output` of the three bytes
`ef bf bd` (U+FFFD, what `ReadRune` returns for the invalid byte), not `Output` of `ff`. -/
theorem drain_clear_screen_invalid_text :
    (0x0c ∉ [0xff] ∧ 0x0a ∉ [0xff] ∧ [0xff].length < 1024) ∧
    drain ([0xff] ++ [0x0c] ++ []) = [Event.Output [0xEF, 0xBF, 0xBD], Event.Clear] ∧
    drain ([0xff] ++ [0x0c] ++ [])
      ≠ (if [0xff] = [] then [] else [Event.Output [0xff]]) ++ [Event.Clear] ++ drain [] := by
  decide

/-- C10, amended. Clear-screen tokenization: for every valid UTF-8 text `s` that contains no
form feed and no newline and is shorter than 1024 bytes, and every remaining stream `t`, the
output-draining loop on `s ++ "\x0c" ++ t` emits `Output(s)` (omitted when `s` is empty), then
`Clear`, then exactly the events it emits for `t` alone. -/
theorem drain_clear_screen (s t : List Nat) (hv : validUTF8 s) (hff : 0x0c ∉ s)
    (hnl : 0x0a ∉ s) (hlen : s.length < 1024) :
    drain (s ++ [0x0c] ++ t)
      = (if s = [] then [] else [Event.Output s]) ++ [Event.Clear] ++ drain t := by
  obtain ⟨rs, hrs, rfl⟩ := hv
  have h1 : ∀ r ∈ rs, r ≠ 0x0c := by
    intro r hr hc
    apply hff
    apply mem_encodeRunes rs r 0x0c hr
    rw [hc]
    decide
  have h2 : ∀ r ∈ rs, r ≠ 0x0a := by
    intro r hr hc
    apply hnl
    apply mem_encodeRunes rs r 0x0a hr
    rw [hc]
    decide
  have h := drainLoop_text rs t [] hrs h1 h2 (by simpa using hlen)
  simp only [List.nil_append] at h
  have hfl : flush (encodeRunes rs)
      = (if encodeRunes rs = [] then [] else [Event.Output (encodeRunes rs)]) := by
    unfold flush
    cases encodeRunes rs <;> simp
  unfold drain
  rw [List.append_assoc, List.singleton_append, h, hfl]

theorem drain_clear_screen_witness :
    (validUTF8 [0x61, 0x62, 0x63] ∧ 0x0c ∉ [0x61, 0x62, 0x63] ∧ 0x0a ∉ [0x61, 0x62, 0x63]) ∧
    drain ([0x61, 0x62, 0x63] ++ [0x0c] ++ [0x64, 0x65, 0x66, 0x0a])
      = [Event.Output [0x61, 0x62, 0x63], Event.Clear, Event.Output [0x64, 0x65, 0x66, 0x0a]] :=
  ⟨⟨⟨[0x61, 0x62, 0x63], by decide, by decide⟩, by decide, by decide⟩,
    (drain_clear_screen [0x61, 0x62, 0x63] [0x64, 0x65, 0x66, 0x0a]
      ⟨[0x61, 0x62, 0x63], by decide, by decide⟩ (by decide) (by decide) (by decide)).trans
      (by decide)⟩

/-! ## Runes in the buffer -/

theorem AppendRune_invalid (r : Nat) (h : ValidRune r = false) :
    AppendRune r = AppendRune RuneError := by
  have h1 : 0xD800 ≤ r ∧ (r ≤ 0xDFFF ∨ 0x10FFFF < r) := by
    simp only [ValidRune, Bool.or_eq_false_iff, decide_eq_false_iff_not, Bool.and_eq_false_imp,
      decide_eq_true_eq, not_lt, not_le] at h
    omega
  have h2 : AppendRune RuneError = [0xEF, 0xBF, 0xBD] := by decide
  rw [h2]
  unfold AppendRune
  rw [if_neg (by omega), if_neg (by omega), if_pos (by omega)]
  decide

theorem AppendRune_shape (r : Nat) :
    (r ≤ 0x7F ∧ AppendRune r = [r]) ∨
    (0x7F < r ∧ (∀ b ∈ AppendRune r, 0x80 ≤ b) ∧ 2 ≤ (AppendRune r).length ∧
      (AppendRune r).length ≤ 4) := by
  by_cases h1 : r ≤ 0x7F
  · exact Or.inl ⟨h1, AppendRune_1 r h1⟩
  · right
    refine ⟨by omega, ?_⟩
    by_cases hv : ValidRune r = true
    · have hv1 : r < 0xD800 ∨ (0xDFFF < r ∧ r ≤ 0x10FFFF) := by
        simpa [ValidRune] using hv
      by_cases h2 : r ≤ 0x7FF
      · rw [AppendRune_2 r (by omega) h2]
        refine ⟨?_, by simp, by simp⟩
        intro b hb
        simp only [List.mem_cons, List.mem_singleton, List.mem_nil_iff, or_false] at hb
        omega
      · by_cases h3 : r ≤ 0xFFFF
        · rw [AppendRune_3 r (by omega) h3 (by omega)]
          refine ⟨?_, by simp, by simp⟩
          intro b hb
          simp only [List.mem_cons, List.mem_singleton, List.mem_nil_iff, or_false] at hb
          omega
        · rw [AppendRune_4 r (by omega) (by omega)]
          refine ⟨?_, by simp, by simp⟩
          intro b hb
          simp only [List.mem_cons, List.mem_singleton, List.mem_nil_iff, or_false] at hb
          omega
    · have hv2 : ValidRune r = false := by simpa using hv
      have h2 : AppendRune RuneError = [0xEF, 0xBF, 0xBD] := by decide
      rw [AppendRune_invalid r hv2, h2]
      refine ⟨?_, by simp, by simp⟩
      intro b hb
      simp only [List.mem_cons, List.mem_singleton, List.mem_nil_iff, or_false] at hb
      omega

theorem AppendRune_length (r : Nat) :
    1 ≤ (AppendRune r).length ∧ (AppendRune r).length ≤ 4 := by
  rcases AppendRune_shape r with ⟨-, h⟩ | ⟨-, -, h1, h2⟩
  · rw [h]
    simp
  · omega

theorem AppendRune_mem_ascii (r b : Nat) (hb : b ∈ AppendRune r) (hlt : b < 0x80) :
    r = b := by
  rcases AppendRune_shape r with ⟨-, h⟩ | ⟨-, h, -⟩
  · rw [h] at hb
    simp only [List.mem_singleton] at hb
    exact hb.symm
  · have := h b hb
    omega

theorem encodeRunes_append (xs ys : List Nat) :
    encodeRunes (xs ++ ys) = encodeRunes xs ++ encodeRunes ys := by
  induction xs with
  | nil => rfl
  | cons x xs ih => simp [encodeRunes, ih]

theorem encodeRunes_length_ge (rs : List Nat) : rs.length ≤ (encodeRunes rs).length := by
  induction rs with
  | nil => simp [encodeRunes]
  | cons r rs ih =>
    have := (AppendRune_length r).1
    simp only [encodeRunes, List.length_cons, List.length_append]
    omega

theorem encodeRunes_ascii (s : List Nat) (h : ∀ b ∈ s, b < 0x80) : encodeRunes s = s := by
  induction s with
  | nil => rfl
  | cons b s ih =>
    have hb : b < 0x80 := h b (List.mem_cons_self b s)
    simp only [encodeRunes, AppendRune_1 b (by omega),
      ih (fun x hx => h x (List.mem_cons_of_mem b hx))]
    rfl

/-- Replacing every invalid rune by `RuneError` leaves the encoding unchanged. -/
theorem encodeRunes_valid (rs : List Nat) :
    ∃ vs : List Nat, (∀ r ∈ vs, ValidRune r = true) ∧ vs.length = rs.length ∧
      encodeRunes vs = encodeRunes rs := by
  induction rs with
  | nil => exact ⟨[], by simp, rfl, rfl⟩
  | cons r rs ih =>
    obtain ⟨vs, hv, hl, he⟩ := ih
    by_cases hr : ValidRune r = true
    · refine ⟨r :: vs, ?_, by simp [hl], by simp [encodeRunes, he]⟩
      intro x hx
      rcases List.mem_cons.mp hx with h | h
      · rw [h]; exact hr
      · exact hv x h
    · have hr2 : ValidRune r = false := by simpa using hr
      refine ⟨RuneError :: vs, ?_, by simp [hl], ?_⟩
      · intro x hx
        rcases List.mem_cons.mp hx with h | h
        · rw [h]; decide
        · exact hv x h
      · simp [encodeRunes, he, AppendRune_invalid r hr2]


/-! ## Invariants of the draining loop -/

theorem mem_flush (buffer d : List Nat) (h : Event.Output d ∈ flush buffer) :
    d = buffer ∧ 0 < buffer.length := by
  unfold flush at h
  split_ifs at h with hb
  · simp only [List.mem_singleton, Event.Output.injEq] at h
    exact ⟨h, hb⟩
  · simp at h

/-- Induction over the draining loop: a property `Q` of the data of every `Output` event from
an invariant `Inv` of the buffer and an invariant `R` of the reader. -/
theorem drainLoop_outputs (R Inv Q : List Nat → Prop)
    (hR : ∀ reader r reader1, R reader → ReadRune reader = some (r, reader1) → R reader1)
    (hnil : Inv [])
    (hflush : ∀ b, Inv b → 0 < b.length → Q b)
    (hstepQ : ∀ reader r reader1 b, R reader → ReadRune reader = some (r, reader1) → Inv b →
      r ≠ 0x0c → (r = 0x0a ∨ (b ++ AppendRune r).length ≥ 1024) → Q (b ++ AppendRune r))
    (hstepI : ∀ reader r reader1 b, R reader → ReadRune reader = some (r, reader1) → Inv b →
      r ≠ 0x0c → ¬ (r = 0x0a ∨ (b ++ AppendRune r).length ≥ 1024) → Inv (b ++ AppendRune r))
    (fuel : Nat) (reader buffer : List Nat) (hr : R reader) (hb : Inv buffer) (d : List Nat)
    (hd : Event.Output d ∈ drainLoop fuel reader buffer) : Q d := by
  induction fuel generalizing reader buffer with
  | zero =>
    simp only [drainLoop] at hd
    obtain ⟨rfl, hpos⟩ := mem_flush buffer d hd
    exact hflush _ hb hpos
  | succ fuel ih =>
    simp only [drainLoop] at hd
    cases hrd : ReadRune reader with
    | none =>
      rw [hrd] at hd
      simp only [] at hd
      obtain ⟨rfl, hpos⟩ := mem_flush buffer d hd
      exact hflush _ hb hpos
    | some v =>
      obtain ⟨r, reader1⟩ := v
      rw [hrd] at hd
      simp only [] at hd
      have hr1 := hR reader r reader1 hr hrd
      by_cases hff : r = 0x0c
      · rw [if_pos hff] at hd
        simp only [List.append_assoc, List.mem_append, List.mem_singleton, reduceCtorEq,
          false_or] at hd
        rcases hd with hd | hd
        · obtain ⟨rfl, hpos⟩ := mem_flush buffer d hd
          exact hflush _ hb hpos
        · exact ih reader1 [] hr1 hnil hd
      · rw [if_neg hff] at hd
        by_cases hfl : r = 0x0a ∨ (buffer ++ AppendRune r).length ≥ 1024
        · rw [if_pos hfl] at hd
          rcases List.mem_cons.mp hd with hd | hd
          · simp only [Event.Output.injEq] at hd
            rw [hd]
            exact hstepQ reader r reader1 buffer hr hrd hb hff hfl
          · exact ih reader1 [] hr1 hnil hd
        · rw [if_neg hfl] at hd
          exact ih reader1 _ hr1 (hstepI reader r reader1 buffer hr hrd hb hff hfl) hd

theorem ReadRune_ascii (reader : List Nat) (r : Nat) (reader1 : List Nat)
    (ha : ∀ b ∈ reader, b < 0x80) (h : ReadRune reader = some (r, reader1)) :
    r < 0x80 ∧ ∀ b ∈ reader1, b < 0x80 := by
  cases reader with
  | nil => simp [ReadRune] at h
  | cons b rest =>
    have hb : b < 0x80 := ha b (List.mem_cons_self b rest)
    simp only [ReadRune] at h
    rw [if_neg (by omega)] at h
    simp only [Option.some.injEq, Prod.mk.injEq] at h
    obtain ⟨rfl, rfl⟩ := h
    exact ⟨hb, fun x hx => ha x (List.mem_cons_of_mem _ hx)⟩

/-- C17. Size invariant of tokenization: for every output stream, every `Output` event of the
output-draining loop has non-empty data of at most 1027 bytes (the buffer is below 1024 bytes
before each append and a rune adds at most 4 bytes), and of at most 1024 bytes when the stream
is pure ASCII. -/
theorem drain_output_size (stream d : List Nat) (hd : Event.Output d ∈ drain stream) :
    d ≠ [] ∧ d.length ≤ 1027 ∧ ((∀ b ∈ stream, b < 0x80) → d.length ≤ 1024) := by
  have h1 : 0 < d.length ∧ d.length ≤ 1027 := by
    refine drainLoop_outputs (fun _ => True) (fun b => b.length < 1024)
      (fun d => 0 < d.length ∧ d.length ≤ 1027) (fun _ _ _ _ _ => trivial) (by simp)
      (fun b hb hpos => ⟨hpos, by omega⟩) ?_ ?_ stream.length stream [] trivial (by simp) d hd
    · intro reader r reader1 b _ _ hb _ _
      have hl := AppendRune_length r
      rw [List.length_append]
      omega
    · intro reader r reader1 b _ _ hb _ hfl
      simp only [not_or, not_le, ge_iff_le] at hfl
      exact hfl.2
  refine ⟨List.ne_nil_of_length_pos h1.1, h1.2, fun hascii => ?_⟩
  refine drainLoop_outputs (fun reader => ∀ b ∈ reader, b < 0x80) (fun b => b.length < 1024)
    (fun d => d.length ≤ 1024) (fun reader r reader1 ha h => (ReadRune_ascii reader r reader1 ha h).2)
    (by simp) (fun b hb hpos => by omega) ?_ ?_ stream.length stream [] hascii (by simp) d hd
  · intro reader r reader1 b ha hrd hb _ _
    have hr := (ReadRune_ascii reader r reader1 ha hrd).1
    rw [List.length_append, AppendRune_1 r (by omega)]
    simp only [List.length_cons, List.length_nil]
    omega
  · intro reader r reader1 b _ _ hb _ hfl
    simp only [not_or, not_le, ge_iff_le] at hfl
    exact hfl.2


theorem not_mem_AppendRune (r b : Nat) (hb : b < 0x80) (hne : r ≠ b) : b ∉ AppendRune r :=
  fun h => hne (AppendRune_mem_ascii r b h hb)

theorem drain_newline_last (stream d : List Nat) (hd : Event.Output d ∈ drain stream) :
    0x0a ∉ d.dropLast := by
  refine drainLoop_outputs (fun _ => True) (fun b => 0x0a ∉ b) (fun d => 0x0a ∉ d.dropLast)
    (fun _ _ _ _ _ => trivial) (by simp) (fun b hb _ hm => hb (List.mem_of_mem_dropLast hm))
    ?_ ?_ stream.length stream [] trivial (by simp) d hd
  · intro reader r reader1 b _ _ hb _ _
    by_cases hnl : r = 0x0a
    · have h1 : AppendRune r = [0x0a] := by rw [hnl]; decide
      rw [h1, List.dropLast_concat]
      exact hb
    · intro hm
      have hm1 := List.mem_of_mem_dropLast hm
      rcases List.mem_append.mp hm1 with h | h
      · exact hb h
      · exact not_mem_AppendRune r 0x0a (by decide) hnl h
  · intro reader r reader1 b _ _ hb _ hfl hm
    simp only [not_or] at hfl
    rcases List.mem_append.mp hm with h | h
    · exact hb h
    · exact not_mem_AppendRune r 0x0a (by decide) hfl.1 h

theorem drain_output_runes (stream d : List Nat) (hd : Event.Output d ∈ drain stream) :
    ∃ rs : List Nat, (∀ r ∈ rs, ValidRune r = true) ∧ d = encodeRunes rs ∧ rs.length ≤ 1024 := by
  have h1 : ∃ rs : List Nat, d = encodeRunes rs ∧ rs.length ≤ 1024 := by
    refine drainLoop_outputs (fun _ => True)
      (fun b => b.length < 1024 ∧ ∃ rs : List Nat, b = encodeRunes rs)
      (fun d => ∃ rs : List Nat, d = encodeRunes rs ∧ rs.length ≤ 1024)
      (fun _ _ _ _ _ => trivial) ⟨by simp, [], rfl⟩ ?_ ?_ ?_ stream.length stream [] trivial
      ⟨by simp, [], rfl⟩ d hd
    · rintro b ⟨hl, rs, rfl⟩ _
      have := encodeRunes_length_ge rs
      exact ⟨rs, rfl, by omega⟩
    · rintro reader r reader1 b _ _ ⟨hl, rs, rfl⟩ _ _
      have := encodeRunes_length_ge rs
      refine ⟨rs ++ [r], ?_, by simp; omega⟩
      rw [encodeRunes_append]
      simp [encodeRunes]
    · rintro reader r reader1 b _ _ ⟨hl, rs, rfl⟩ _ hfl
      simp only [not_or, not_le, ge_iff_le] at hfl
      refine ⟨hfl.2, rs ++ [r], ?_⟩
      rw [encodeRunes_append]
      simp [encodeRunes]
  obtain ⟨rs, hrs, hl⟩ := h1
  obtain ⟨vs, hv, hvl, hve⟩ := encodeRunes_valid rs
  exact ⟨vs, hv, by rw [hrs, hve], by omega⟩

/-- Every two consecutive events of the draining loop: when the first is an `Output`, the
second is `Clear`, or the data ends with a newline or is at least 1024 bytes long. -/
theorem drainLoop_chain (fuel : Nat) (reader buffer : List Nat) :
    List.Chain' (fun a b => ∀ d, a = Event.Output d →
      b = Event.Clear ∨ d.getLast? = some 0x0a ∨ 1024 ≤ d.length)
      (drainLoop fuel reader buffer) := by
  have hfl : ∀ b : List Nat, List.Chain' (fun a b => ∀ d, a = Event.Output d →
      b = Event.Clear ∨ d.getLast? = some 0x0a ∨ 1024 ≤ d.length) (flush b) := by
    intro b
    unfold flush
    split_ifs <;> simp
  induction fuel generalizing reader buffer with
  | zero => exact hfl buffer
  | succ fuel ih =>
    simp only [drainLoop]
    cases hrd : ReadRune reader with
    | none => exact hfl buffer
    | some v =>
      obtain ⟨r, reader1⟩ := v
      simp only []
      have hrec := ih reader1
      by_cases hff : r = 0x0c
      · rw [if_pos hff]
        have hcl : List.Chain' (fun a b => ∀ d, a = Event.Output d →
            b = Event.Clear ∨ d.getLast? = some 0x0a ∨ 1024 ≤ d.length)
            (Event.Clear :: drainLoop fuel reader1 []) := by
          rw [List.chain'_cons']
          exact ⟨fun y _ d hd => (by cases hd), hrec []⟩
        unfold flush
        split_ifs
        · simp only [List.singleton_append, List.cons_append, List.nil_append]
          rw [List.chain'_cons']
          refine ⟨?_, hcl⟩
          intro y hy d _
          simp only [List.head?_cons, Option.mem_def, Option.some.injEq] at hy
          exact Or.inl hy.symm
        · simpa using hcl
      · rw [if_neg hff]
        by_cases hflush : r = 0x0a ∨ (buffer ++ AppendRune r).length ≥ 1024
        · rw [if_pos hflush]
          rw [List.chain'_cons']
          refine ⟨?_, hrec []⟩
          intro y _ d hd
          simp only [Event.Output.injEq] at hd
          right
          rcases hflush with h | h
          · left
            have h1 : AppendRune r = [0x0a] := by rw [h]; decide
            rw [← hd, h1]
            simp
          · right
            rw [← hd]
            exact h
        · rw [if_neg hflush]
          exact hrec _

theorem drain_output_boundary (stream : List Nat) (pre : List Event) (d : List Nat) (e : Event)
    (post : List Event) (h : drain stream = pre ++ Event.Output d :: e :: post) :
    e = Event.Clear ∨ d.getLast? = some 0x0a ∨ 1024 ≤ d.length := by
  have hc := drainLoop_chain stream.length stream []
  unfold drain at h
  rw [h] at hc
  have h2 := (List.chain'_split.mp hc).2
  rw [List.chain'_cons] at h2
  exact h2.1 d rfl


theorem outputData_append (xs ys : List Event) :
    outputData (xs ++ ys) = outputData xs ++ outputData ys := by
  induction xs with
  | nil => rfl
  | cons e xs ih => cases e <;> simp [outputData, ih]

theorem outputData_flush (buffer : List Nat) : outputData (flush buffer) = buffer := by
  unfold flush
  cases buffer <;> simp [outputData]

theorem count_clear_flush (buffer : List Nat) : (flush buffer).count Event.Clear = 0 := by
  unfold flush
  split_ifs <;> simp

theorem filter_AppendRune (r : Nat) (h : r ≠ 0x0c) :
    (AppendRune r).filter (fun b => decide (b ≠ 0x0c)) = AppendRune r ∧
      (AppendRune r).count 0x0c = 0 := by
  have hn := not_mem_AppendRune r 0x0c (by decide) h
  refine ⟨?_, List.count_eq_zero.mpr hn⟩
  rw [List.filter_eq_self]
  intro b hb
  have : b ≠ 0x0c := fun hc => hn (hc ▸ hb)
  simpa using this

theorem drainLoop_concat (rs : List Nat) (buffer : List Nat)
    (hv : ∀ r ∈ rs, ValidRune r = true) :
    outputData (drainLoop (encodeRunes rs).length (encodeRunes rs) buffer)
      = buffer ++ (encodeRunes rs).filter (fun b => decide (b ≠ 0x0c)) ∧
    (drainLoop (encodeRunes rs).length (encodeRunes rs) buffer).count Event.Clear
      = (encodeRunes rs).count 0x0c := by
  induction rs generalizing buffer with
  | nil =>
    simp only [encodeRunes, List.length_nil, drainLoop, List.filter_nil, List.append_nil,
      List.count_nil]
    exact ⟨outputData_flush buffer, count_clear_flush buffer⟩
  | cons r rs ih =>
    have hr : ValidRune r = true := hv r (List.mem_cons_self r rs)
    have hrs : ∀ x ∈ rs, ValidRune x = true := fun x hx => hv x (List.mem_cons_of_mem r hx)
    simp only [encodeRunes]
    rw [drain_eq, ReadRune_AppendRune r _ hr]
    simp only []
    by_cases hff : r = 0x0c
    · have h1 : AppendRune r = [0x0c] := by rw [hff]; decide
      obtain ⟨ih1, ih2⟩ := ih [] hrs
      rw [if_pos hff, h1]
      constructor
      · rw [outputData_append, outputData_append, outputData_flush, ih1]
        simp [outputData]
      · rw [List.count_append, List.count_append, count_clear_flush, ih2]
        simp
        omega
    · obtain ⟨f1, f2⟩ := filter_AppendRune r hff
      rw [if_neg hff, List.filter_append, List.count_append, f1, f2]
      by_cases hfl : r = 0x0a ∨ (buffer ++ AppendRune r).length ≥ 1024
      · obtain ⟨ih1, ih2⟩ := ih [] hrs
        rw [if_pos hfl]
        constructor
        · simp only [outputData, ih1, List.nil_append, List.append_assoc]
        · rw [List.count_cons, ih2]
          simp
      · obtain ⟨ih1, ih2⟩ := ih (buffer ++ AppendRune r) hrs
        rw [if_neg hfl]
        constructor
        · rw [ih1, List.append_assoc]
        · rw [ih2]
          simp

/-- C15. Tokenization loses and reorders nothing: for every valid UTF-8 output stream `s`, the
data of the `Output` events of the output-draining loop, concatenated in the order of
emission, is `s` without its form feeds, and the number of `Clear` events is the number of
form feeds in `s`. -/
theorem drain_loses_nothing (s : List Nat) (hv : validUTF8 s) :
    outputData (drain s) = s.filter (fun b => decide (b ≠ 0x0c)) ∧
      (drain s).count Event.Clear = s.count 0x0c := by
  obtain ⟨rs, hrs, rfl⟩ := hv
  have h := drainLoop_concat rs [] hrs
  simpa [drain] using h

theorem drainLoop_text_end (rs : List Nat) (buffer : List Nat)
    (hv : ∀ r ∈ rs, ValidRune r = true) (hne : ∀ r ∈ rs, r ≠ 0x0a ∧ r ≠ 0x0c)
    (hlen : buffer.length + (encodeRunes rs).length < 1024) :
    drainLoop (encodeRunes rs).length (encodeRunes rs) buffer
      = flush (buffer ++ encodeRunes rs) := by
  induction rs generalizing buffer with
  | nil => simp [encodeRunes, drainLoop]
  | cons r rs ih =>
    have hr : ValidRune r = true := hv r (List.mem_cons_self r rs)
    have h1 := hne r (List.mem_cons_self r rs)
    simp only [encodeRunes, List.length_append] at hlen
    have h3 : ¬ (r = 0x0a ∨ (buffer ++ AppendRune r).length ≥ 1024) := by
      rw [List.length_append]
      omega
    simp only [encodeRunes]
    rw [drain_eq, ReadRune_AppendRune r _ hr]
    simp only []
    rw [if_neg h1.2, if_neg h3,
      ih (buffer ++ AppendRune r) (fun x hx => hv x (List.mem_cons_of_mem r hx))
        (fun x hx => hne x (List.mem_cons_of_mem r hx))
        (by rw [List.length_append]; omega)]
    simp only [List.append_assoc]

theorem drainLoop_first_output (rs : List Nat) (buffer : List Nat)
    (hv : ∀ r ∈ rs, ValidRune r = true) (hne : ∀ r ∈ rs, r ≠ 0x0a ∧ r ≠ 0x0c)
    (hb : buffer.length < 1024) (hlen : 1024 ≤ buffer.length + (encodeRunes rs).length) :
    ∃ k, 1 ≤ k ∧ k ≤ rs.length ∧
      buffer.length + (encodeRunes (rs.take (k - 1))).length < 1024 ∧
      1024 ≤ buffer.length + (encodeRunes (rs.take k)).length ∧
      drainLoop (encodeRunes rs).length (encodeRunes rs) buffer
        = Event.Output (buffer ++ encodeRunes (rs.take k))
          :: drainLoop (encodeRunes (rs.drop k)).length (encodeRunes (rs.drop k)) [] := by
  induction rs generalizing buffer with
  | nil =>
    simp only [encodeRunes, List.length_nil] at hlen
    omega
  | cons r rs ih =>
    have hr : ValidRune r = true := hv r (List.mem_cons_self r rs)
    have h1 := hne r (List.mem_cons_self r rs)
    simp only [encodeRunes, List.length_append] at hlen
    have hstep : drainLoop (encodeRunes (r :: rs)).length (encodeRunes (r :: rs)) buffer
        = if r = 0x0a ∨ (buffer ++ AppendRune r).length ≥ 1024 then
            Event.Output (buffer ++ AppendRune r)
              :: drainLoop (encodeRunes rs).length (encodeRunes rs) []
          else drainLoop (encodeRunes rs).length (encodeRunes rs) (buffer ++ AppendRune r) := by
      simp only [encodeRunes]
      rw [drain_eq, ReadRune_AppendRune r _ hr]
      simp only []
      rw [if_neg h1.2]
    by_cases hfl : (buffer ++ AppendRune r).length ≥ 1024
    · refine ⟨1, le_refl 1, by simp, ?_, ?_, ?_⟩
      · simpa [encodeRunes] using hb
      · simpa [encodeRunes] using hfl
      · rw [hstep, if_pos (Or.inr hfl)]
        simp [encodeRunes]
    · have hfl1 : (buffer ++ AppendRune r).length < 1024 := by omega
      obtain ⟨k, hk1, hk2, hk3, hk4, hk5⟩ := ih (buffer ++ AppendRune r)
        (fun x hx => hv x (List.mem_cons_of_mem r hx))
        (fun x hx => hne x (List.mem_cons_of_mem r hx)) hfl1
        (by rw [List.length_append]; omega)
      refine ⟨k + 1, by omega, by simp; omega, ?_, ?_, ?_⟩
      · obtain ⟨j, rfl⟩ : ∃ j, k = j + 1 := ⟨k - 1, by omega⟩
        simp only [Nat.add_sub_cancel, List.take_succ_cons, encodeRunes, List.length_append]
          at hk3 ⊢
        omega
      · simp only [List.take_succ_cons, encodeRunes, List.length_append] at hk4 ⊢
        omega
      · rw [hstep, if_neg (by simp only [not_or]; exact ⟨h1.1, hfl⟩), hk5]
        simp [encodeRunes]


/-! ## Claims on tokenization -/

/-- C11. Buffer-size flush.  For every output stream, the data of every `Output` event of the
output-draining loop is the encoding of at most 1024 characters (valid runes).  For a stream
of at least 1024 characters none of which is a newline or a form feed, the first event is an
`Output` of the first `k` characters for some `k` from 1 to 1024, and the loop goes on with
the rest of the stream and an empty buffer.  For 2000 ASCII characters without newline and
form feed the events are one `Output` of the first 1024 characters and one `Output` of the
remaining 976. -/
theorem drain_buffer_size_flush :
    (∀ (stream d : List Nat), Event.Output d ∈ drain stream →
      ∃ rs : List Nat, (∀ r ∈ rs, ValidRune r = true) ∧ d = encodeRunes rs ∧ rs.length ≤ 1024) ∧
    (∀ rs : List Nat, (∀ r ∈ rs, ValidRune r = true) → (∀ r ∈ rs, r ≠ 0x0a ∧ r ≠ 0x0c) →
      1024 ≤ rs.length →
      ∃ k, 1 ≤ k ∧ k ≤ 1024 ∧
        drain (encodeRunes rs)
          = Event.Output (encodeRunes (rs.take k)) :: drain (encodeRunes (rs.drop k))) ∧
    (∀ s : List Nat, s.length = 2000 → (∀ b ∈ s, b < 0x80 ∧ b ≠ 0x0a ∧ b ≠ 0x0c) →
      drain s = [Event.Output (s.take 1024), Event.Output (s.drop 1024)]) := by
  have hb : ∀ rs : List Nat, (∀ r ∈ rs, ValidRune r = true) → (∀ r ∈ rs, r ≠ 0x0a ∧ r ≠ 0x0c) →
      1024 ≤ (encodeRunes rs).length →
      ∃ k, 1 ≤ k ∧ k ≤ 1024 ∧ k ≤ rs.length ∧ 1024 ≤ (encodeRunes (rs.take k)).length ∧
        drain (encodeRunes rs)
          = Event.Output (encodeRunes (rs.take k)) :: drain (encodeRunes (rs.drop k)) := by
    intro rs hv hne hlen
    obtain ⟨k, hk1, hk2, hk3, hk4, hk5⟩ :=
      drainLoop_first_output rs [] hv hne (by simp) (by simpa using hlen)
    have h1 := encodeRunes_length_ge (rs.take (k - 1))
    simp only [List.length_nil, Nat.zero_add, List.length_take] at hk3 hk4 h1
    refine ⟨k, hk1, by omega, hk2, hk4, ?_⟩
    simpa [drain] using hk5
  refine ⟨drain_output_runes, ?_, ?_⟩
  · intro rs hv hne hlen
    have h1 := encodeRunes_length_ge rs
    obtain ⟨k, hk1, hk2, -, -, hk5⟩ := hb rs hv hne (by omega)
    exact ⟨k, hk1, hk2, hk5⟩
  · intro s hlen hs
    have hascii : ∀ b ∈ s, b < 0x80 := fun b hb => (hs b hb).1
    have henc : ∀ t : List Nat, (∀ b ∈ t, b ∈ s) → encodeRunes t = t :=
      fun t ht => encodeRunes_ascii t (fun b hb => hascii b (ht b hb))
    have hvalid : ∀ t : List Nat, (∀ b ∈ t, b ∈ s) → ∀ r ∈ t, ValidRune r = true := by
      intro t ht r hr
      have := hascii r (ht r hr)
      simp only [ValidRune, Bool.or_eq_true, decide_eq_true_eq]
      left
      omega
    have hne : ∀ r ∈ s, r ≠ 0x0a ∧ r ≠ 0x0c := fun r hr => (hs r hr).2
    have hs_enc := henc s (fun b hb => hb)
    obtain ⟨k, hk1, hk2, hk3, hk4, hk5⟩ :=
      hb s (hvalid s (fun b hb => hb)) hne (by rw [hs_enc]; omega)
    rw [hs_enc, henc (s.take k) (fun b hb => List.mem_of_mem_take hb),
      henc (s.drop k) (fun b hb => List.mem_of_mem_drop hb)] at hk5
    rw [henc (s.take k) (fun b hb => List.mem_of_mem_take hb), List.length_take] at hk4
    have hk : k = 1024 := by omega
    subst hk
    have hrest := drainLoop_text_end (s.drop 1024) []
      (hvalid _ (fun b hb => List.mem_of_mem_drop hb))
      (fun r hr => hne r (List.mem_of_mem_drop hr))
      (by rw [henc (s.drop 1024) (fun b hb => List.mem_of_mem_drop hb)]; simp; omega)
    rw [henc (s.drop 1024) (fun b hb => List.mem_of_mem_drop hb)] at hrest
    have hfl : flush (s.drop 1024) = [Event.Output (s.drop 1024)] := by
      unfold flush
      rw [if_pos (by simp; omega)]
    rw [hk5]
    unfold drain
    rw [hrest, List.nil_append, hfl]

theorem drain_buffer_size_flush_witness :
    drain (List.replicate 2000 0x61)
      = [Event.Output ((List.replicate 2000 0x61).take 1024),
         Event.Output ((List.replicate 2000 0x61).drop 1024)] :=
  drain_buffer_size_flush.2.2 (List.replicate 2000 0x61) (List.length_replicate 2000 0x61)
    (fun b hb => by rw [List.eq_of_mem_replicate hb]; decide)

theorem drain_loses_nothing_witness :
    validUTF8 [0x61, 0x0c, 0xe4, 0xb8, 0x96, 0x0a, 0x0c] ∧
    outputData (drain [0x61, 0x0c, 0xe4, 0xb8, 0x96, 0x0a, 0x0c])
      = [0x61, 0x0c, 0xe4, 0xb8, 0x96, 0x0a, 0x0c].filter (fun b => decide (b ≠ 0x0c)) ∧
    (drain [0x61, 0x0c, 0xe4, 0xb8, 0x96, 0x0a, 0x0c]).count Event.Clear
      = [0x61, 0x0c, 0xe4, 0xb8, 0x96, 0x0a, 0x0c].count 0x0c :=
  ⟨⟨[0x61, 0x0c, 0x4e16, 0x0a, 0x0c], by decide, by decide⟩,
    drain_loses_nothing [0x61, 0x0c, 0xe4, 0xb8, 0x96, 0x0a, 0x0c]
      ⟨[0x61, 0x0c, 0x4e16, 0x0a, 0x0c], by decide, by decide⟩⟩

/-- C16. Line-boundary invariant of tokenization: for every output stream, in the data of
every `Output` event of the output-draining loop the newline byte occurs nowhere before the
last position, and every `Output` event that has a next event other than `Clear` ends with a
newline or is at least 1024 bytes long. -/
theorem drain_line_boundary (stream : List Nat) :
    (∀ d : List Nat, Event.Output d ∈ drain stream → 0x0a ∉ d.dropLast) ∧
    (∀ (pre : List Event) (d : List Nat) (e : Event) (post : List Event),
      drain stream = pre ++ Event.Output d :: e :: post →
      e = Event.Clear ∨ d.getLast? = some 0x0a ∨ 1024 ≤ d.length) :=
  ⟨fun d hd => drain_newline_last stream d hd,
    fun pre d e post h => drain_output_boundary stream pre d e post h⟩

theorem drain_output_size_witness :
    Event.Output [0x61, 0x0a] ∈ drain [0x61, 0x0a, 0x62] ∧
    ([0x61, 0x0a] ≠ [] ∧ [0x61, 0x0a].length ≤ 1027 ∧
      ((∀ b ∈ [0x61, 0x0a, 0x62], b < 0x80) → [0x61, 0x0a].length ≤ 1024)) :=
  ⟨by decide, drain_output_size [0x61, 0x0a, 0x62] [0x61, 0x0a] (by decide)⟩


/-! ## The session loop, frame by frame -/

theorem handleWebSocketLoop_fuel_eq (maxAlloc memory : Nat) (f1 f2 : Nat) (conn : List Nat)
    (h1 : conn.length < f1) (h2 : conn.length < f2) :
    handleWebSocketLoop maxAlloc memory f1 conn = handleWebSocketLoop maxAlloc memory f2 conn := by
  induction f1 generalizing f2 conn with
  | zero => omega
  | succ f1 ih =>
    cases f2 with
    | zero => omega
    | succ f2 =>
      simp only [handleWebSocketLoop]
      cases hrd : wsReadMessage maxAlloc memory conn with
      | makeslicePanic c => rfl
      | outOfMemory c => rfl
      | returned messageType msg err conn1 =>
        cases err with
        | some e => rfl
        | none =>
          have hl := wsReadMessage_ok_length maxAlloc memory conn messageType msg conn1 hrd
          simp only []
          rw [ih f2 conn1 (by omega) (by omega)]

theorem handleWebSocket_eq (maxAlloc memory : Nat) (conn : List Nat) :
    handleWebSocket maxAlloc memory conn =
      match wsReadMessage maxAlloc memory conn with
      | ReadOutcome.makeslicePanic _ => ([], SessionEnd.panicked)
      | ReadOutcome.outOfMemory _ => ([], SessionEnd.died)
      | ReadOutcome.returned messageType msg err conn1 =>
        match err with
        | some e => ([], SessionEnd.readError e)
        | none =>
          if messageType = 8 then ([], SessionEnd.closeFrame)
          else if messageType ≠ 1 then handleWebSocket maxAlloc memory conn1
          else (msg :: (handleWebSocket maxAlloc memory conn1).1,
            (handleWebSocket maxAlloc memory conn1).2) := by
  have hstep : handleWebSocket maxAlloc memory conn =
      match wsReadMessage maxAlloc memory conn with
      | ReadOutcome.makeslicePanic _ => ([], SessionEnd.panicked)
      | ReadOutcome.outOfMemory _ => ([], SessionEnd.died)
      | ReadOutcome.returned messageType msg err conn1 =>
        match err with
        | some e => ([], SessionEnd.readError e)
        | none =>
          if messageType = 8 then ([], SessionEnd.closeFrame)
          else if messageType ≠ 1 then handleWebSocketLoop maxAlloc memory conn.length conn1
          else (msg :: (handleWebSocketLoop maxAlloc memory conn.length conn1).1,
            (handleWebSocketLoop maxAlloc memory conn.length conn1).2) := rfl
  rw [hstep]
  cases hrd : wsReadMessage maxAlloc memory conn with
  | makeslicePanic c => rfl
  | outOfMemory c => rfl
  | returned messageType msg err conn1 =>
    cases err with
    | some e => rfl
    | none =>
      have hl := wsReadMessage_ok_length maxAlloc memory conn messageType msg conn1 hrd
      simp only []
      unfold handleWebSocket
      rw [handleWebSocketLoop_fuel_eq maxAlloc memory conn.length (conn1.length + 1) conn1
        (by omega) (by omega)]

/-- C12. Dispatch rule of the session loop, for every successfully decoded frame with opcode
`o` below 16 and payload `p` (a final frame with any reserved bits, masked or not, in any
length form, of a payload length that `make` can allocate on the machine: within the
allocator limit `maxAlloc` and the memory `memory`).  In the iteration that reads the frame
(iteration budget 1, where `outOfFuel` says that the loop goes on to its next iteration) the
loop ends, by `closeFrame`, iff `o = 8`, and the runs it starts are the one run of source
text `p` iff `o = 1` and none otherwise.  For the whole loop: with `o = 8` it ends without a
run whatever follows; with `o = 1` it starts the run of `p` and goes on with the next frame;
with any other opcode it does what it does on the stream after the frame.  The loop has no
write of its own: the runs started and the way it ends are all its effects. -/
theorem handleWebSocket_dispatch (maxAlloc memory : Nat) (rsv o : Nat) (form : LenForm)
    (maskKey : Option (List Nat))
    (wire p rest : List Nat) (hr : rsv < 8) (ho : o < 16) (hf : form.fits wire.length)
    (hk : ∀ K, maskKey = some K → K.length = 4)
    (ha : wire.length ≤ maxAlloc) (hm : wire.length ≤ memory)
    (hp : p = match maskKey with
      | some K => unmask K wire
      | none => wire) :
    wsReadMessage maxAlloc memory (frameBytes true rsv o form maskKey wire ++ rest)
      = ReadOutcome.returned o p none rest ∧
    ((handleWebSocketLoop maxAlloc memory 1 (frameBytes true rsv o form maskKey wire ++ rest)).2
        = SessionEnd.closeFrame ↔ o = 8) ∧
    ((handleWebSocketLoop maxAlloc memory 1 (frameBytes true rsv o form maskKey wire ++ rest)).1
        = [p] ↔ o = 1) ∧
    (o ≠ 1 →
      (handleWebSocketLoop maxAlloc memory 1
        (frameBytes true rsv o form maskKey wire ++ rest)).1 = []) ∧
    (o ≠ 8 →
      (handleWebSocketLoop maxAlloc memory 1
        (frameBytes true rsv o form maskKey wire ++ rest)).2 = SessionEnd.outOfFuel) ∧
    (o = 8 → handleWebSocket maxAlloc memory (frameBytes true rsv o form maskKey wire ++ rest)
        = ([], SessionEnd.closeFrame)) ∧
    (o = 1 → handleWebSocket maxAlloc memory (frameBytes true rsv o form maskKey wire ++ rest)
        = (p :: (handleWebSocket maxAlloc memory rest).1,
          (handleWebSocket maxAlloc memory rest).2)) ∧
    (o ≠ 8 → o ≠ 1 →
      handleWebSocket maxAlloc memory (frameBytes true rsv o form maskKey wire ++ rest)
        = handleWebSocket maxAlloc memory rest) := by
  have h := wsReadMessage_frame maxAlloc memory true rsv o form maskKey wire rest hr ho hf hk
    ha hm
  simp only [if_true] at h
  rw [← hp] at h
  have hone : handleWebSocketLoop maxAlloc memory 1
      (frameBytes true rsv o form maskKey wire ++ rest)
      = if o = 8 then ([], SessionEnd.closeFrame)
        else if o ≠ 1 then ([], SessionEnd.outOfFuel) else ([p], SessionEnd.outOfFuel) := by
    simp only [handleWebSocketLoop, h]
  have hall := handleWebSocket_eq maxAlloc memory
    (frameBytes true rsv o form maskKey wire ++ rest)
  rw [h] at hall
  simp only [] at hall
  refine ⟨h, ?_, ?_, ?_, ?_, ?_, ?_, ?_⟩
  · rw [hone]
    by_cases h8 : o = 8
    · simp [h8]
    · by_cases h1 : o = 1 <;> simp [h8, h1]
  · rw [hone]
    by_cases h8 : o = 8
    · simp [h8]
    · by_cases h1 : o = 1 <;> simp [h8, h1]
  · intro h1
    rw [hone]
    by_cases h8 : o = 8 <;> simp [h8, h1]
  · intro h8
    rw [hone]
    by_cases h1 : o = 1 <;> simp [h8, h1]
  · intro h8
    rw [hall, if_pos h8]
  · intro h1
    rw [hall, if_neg (by omega), if_neg (by simpa using h1)]
  · intro h8 h1
    rw [hall, if_neg h8, if_pos h1]

theorem handleWebSocket_dispatch_witness :
    handleWebSocket (2 ^ 48) (2 ^ 30) (frameBytes true 0 9 LenForm.literal none [7]
        ++ frameBytes true 0 1 LenForm.literal (some [1, 2, 3, 4]) [105, 107])
      = handleWebSocket (2 ^ 48) (2 ^ 30)
        (frameBytes true 0 1 LenForm.literal (some [1, 2, 3, 4]) [105, 107]) ∧
    handleWebSocket (2 ^ 48) (2 ^ 30)
        (frameBytes true 0 1 LenForm.literal (some [1, 2, 3, 4]) [105, 107] ++ [])
      = ([104, 105] :: (handleWebSocket (2 ^ 48) (2 ^ 30) []).1,
        (handleWebSocket (2 ^ 48) (2 ^ 30) []).2) :=
  ⟨(handleWebSocket_dispatch (2 ^ 48) (2 ^ 30) 0 9 LenForm.literal none [7] [7]
      (frameBytes true 0 1 LenForm.literal (some [1, 2, 3, 4]) [105, 107]) (by decide)
      (by decide) (by decide) (fun K hK => by cases hK) (by decide) (by decide)
      rfl).2.2.2.2.2.2.2 (by decide) (by decide),
    (handleWebSocket_dispatch (2 ^ 48) (2 ^ 30) 0 1 LenForm.literal (some [1, 2, 3, 4])
      [105, 107] [104, 105] [] (by decide) (by decide) (by decide)
      (fun K hK => by cases hK; rfl) (by decide) (by decide) (by decide)).2.2.2.2.2.2.1 rfl⟩

/-! ## Claim on the handshake -/

set_option maxRecDepth 1000000 in
/-- The models of SHA-1 and of base64 on the test vectors of FIPS 180 and RFC 4648. -/
theorem sha1_base64_vectors :
    sha1 (ascii "abc") = [0xa9, 0x99, 0x3e, 0x36, 0x47, 0x06, 0x81, 0x6a, 0xba, 0x3e, 0x25,
      0x71, 0x78, 0x50, 0xc2, 0x6c, 0x9c, 0xd0, 0xd8, 0x9d] ∧
    sha1 [] = [0xda, 0x39, 0xa3, 0xee, 0x5e, 0x6b, 0x4b, 0x0d, 0x32, 0x55, 0xbf, 0xef, 0x95,
      0x60, 0x18, 0x90, 0xaf, 0xd8, 0x07, 0x09] ∧
    sha1 (ascii "abcdbcdecdefdefgefghfghighijhijkijkljklmklmnlmnomnopnopq")
      = [0x84, 0x98, 0x3e, 0x44, 0x1c, 0x3b, 0xd2, 0x6e, 0xba, 0xae, 0x4a, 0xa1, 0xf9, 0x51,
        0x29, 0xe5, 0xe5, 0x46, 0x70, 0xf1] ∧
    base64Encode (ascii "f") = ascii "Zg==" ∧ base64Encode (ascii "fo") = ascii "Zm8=" ∧
    base64Encode (ascii "foo") = ascii "Zm9v" ∧
    base64Encode (ascii "foobar") = ascii "Zm9vYmFy" := by
  refine ⟨by decide, by decide, by decide, by decide, by decide, by decide, by decide⟩

set_option maxRecDepth 1000000 in
/-- C13. Handshake vector: whenever `wsHandshake` answers, the key in the header
`Sec-WebSocket-Accept` of its 101 response is the padded standard base64 of the SHA-1 digest
of the client key followed by `258EAFA5-E914-47DA-95CA-C5AB0DC85B11`, and for the client key
`dGhlIHNhbXBsZSBub25jZQ==` that key is `s3pPLMBiTxaQ9kYGzzhZRbK+xOo=`. -/
theorem wsHandshake_accept_key :
    (∀ key : List Nat, key ≠ [] → wsHandshake key true =
      some (ascii "HTTP/1.1 101 Switching Protocols\r\nUpgrade: websocket\r\nConnection: Upgrade\r\nSec-WebSocket-Accept: "
        ++ base64Encode (sha1 (key ++ ascii "258EAFA5-E914-47DA-95CA-C5AB0DC85B11"))
        ++ ascii "\r\n\r\n")) ∧
    acceptKey (ascii "dGhlIHNhbXBsZSBub25jZQ==") = ascii "s3pPLMBiTxaQ9kYGzzhZRbK+xOo=" ∧
    wsHandshake (ascii "dGhlIHNhbXBsZSBub25jZQ==") true =
      some (ascii "HTTP/1.1 101 Switching Protocols\r\nUpgrade: websocket\r\nConnection: Upgrade\r\nSec-WebSocket-Accept: s3pPLMBiTxaQ9kYGzzhZRbK+xOo=\r\n\r\n") := by
  refine ⟨fun key hk => ?_, by decide, by decide⟩
  unfold wsHandshake acceptKey
  rw [if_neg hk]
  simp [ascii]

/-! ## Claim on the timeout of a run -/

theorem runStep_sent (evs : List RunEvent) (st : RunState) (hp : st.processSet = true) :
    (evs.foldl runStep st).sent =
      if st.sleeping = true ∧ RunEvent.timerFires ∈ evs then
        st.sent ++ [Event.Error timeoutMessage]
      else st.sent := by
  induction evs generalizing st with
  | nil => simp
  | cons ev evs ih =>
    cases ev with
    | streamEnd =>
      rw [List.foldl_cons, ih (runStep st RunEvent.streamEnd) (by simpa [runStep] using hp)]
      simp [runStep]
    | timerFires =>
      rw [List.foldl_cons, ih (runStep st RunEvent.timerFires)
        (by simp only [runStep]; split_ifs <;> simp [hp])]
      by_cases hs : st.sleeping = true
      · simp [runStep, hs, hp]
      · simp [runStep, hs]

/-- C14 fails on the code: nothing stops the timeout goroutine when the run finishes, and
`cmd.Process` is never nil after `cmd.Start()`.  So on the schedule "stream end, then timer"
the run still kills and emits the Error event "Execution timeout, terminated"; for every
schedule of a started run that event is emitted exactly when the timer has fired, whether or
not the draining loop had ended before (and then once, never twice). -/
theorem run_timeout_error_after_stream_end :
    (runTrace [RunEvent.streamEnd, RunEvent.timerFires]).sent
      = [Event.Error timeoutMessage] ∧
    (runTrace [RunEvent.streamEnd]).draining = false ∧
    (runTrace [RunEvent.streamEnd]).sent = [] ∧
    (runTrace [RunEvent.streamEnd, RunEvent.timerFires]).killed = true ∧
    ∀ evs : List RunEvent, (runTrace evs).sent =
      if RunEvent.timerFires ∈ evs then [Event.Error timeoutMessage] else [] := by
  refine ⟨by decide, by decide, by decide, by decide, fun evs => ?_⟩
  have h := runStep_sent evs runStarted rfl
  simpa [runTrace, runStarted] using h

end GoPlayground
